import Mathlib

/-!
Verification of the database bootstrap orchestrator.

Shallow embedding of `src/bootstrap_after_pr.ts` (the bootstrap Lambda handler):
secret resolution, derivation of the target database/schema names, the admin
provisioning phase, the service-role grant phase, and the optional CDC phase,
together with the statement/connection event trace the handler produces.

External collaborators (the secret store, `JSON.parse`, and the PostgreSQL
server's replies) are modelled as oracles inside `World`; everything the
handler itself does is translated statement by statement from the source.
-/

/-- Errors a run can end with, mirroring the exceptions the handler can raise:
`parseError` for `JSON.parse` failures (including parsing an absent
`SecretString`), `typeError` for property access/destructuring on `null` and
for calling `.replace` on `undefined`, `stmtError` for a rejected query. -/
inductive JSErr where
  | parseError
  | typeError
  | stmtError
deriving DecidableEq, Repr

/-- The slice of JavaScript values a parsed secret payload can be, as far as
the handler observes it: the handler only ever reads the `username` and
`password` properties (modelled as optional strings, per the documented secret
contract) and tests truthiness. -/
inductive JSValue where
  | vNull
  | vBool (b : Bool)
  | vNum (n : Int)
  | vStr (s : String)
  | vObj (username : Option String) (password : Option String)
deriving DecidableEq, Repr

/-- JavaScript truthiness of a parsed value (`if (cdcUserSecret)`). -/
def JSValue.truthy : JSValue → Bool
  | .vNull => false
  | .vBool b => b
  | .vNum n => decide (n ≠ 0)
  | .vStr s => decide (s ≠ "")
  | .vObj _ _ => true

/-- The `username` property of a value, `none` meaning `undefined`. -/
def JSValue.uname? : JSValue → Option String
  | .vObj u _ => u
  | _ => none

/-- The `password` property of a value, `none` meaning `undefined`. -/
def JSValue.pword? : JSValue → Option String
  | .vObj _ p => p
  | _ => none

/-- Member access `v.username`: a `TypeError` on `null`, otherwise the
property (`undefined` when absent). `JSON.parse` never yields `undefined`,
so `vNull` is the only throwing case. -/
def JSValue.memberUsername : JSValue → Except JSErr (Option String)
  | .vNull => .error .typeError
  | v => .ok v.uname?

/-- Member access `v.password` (see `JSValue.memberUsername`). -/
def JSValue.memberPassword : JSValue → Except JSErr (Option String)
  | .vNull => .error .typeError
  | v => .ok v.pword?

/-- Template-literal interpolation of a possibly-`undefined` string:
`` `${x}` `` renders `undefined` as the literal text `"undefined"`. -/
def interp : Option String → String
  | none => "undefined"
  | some s => s

/-- The process environment consumed by the handler (after `envalid`
validation); optional variables are `none` when unset. -/
structure Env where
  MASTER_USER_SECRET : String
  APP_USER_SECRET : String
  CDC_USER_SECRET : Option String
  APP_DATABASE_NAME : Option String
  APP_SCHEMA_NAME : Option String
  RDS_HOST : String
deriving Repr

/-- First-occurrence removal on character lists: the JS
`String.prototype.replace(pat, '')` with a string pattern removes only the
first occurrence of `pat`. -/
def replaceFirstAux (pat : List Char) : List Char → List Char
  | [] => []
  | c :: cs =>
    if pat.isPrefixOf (c :: cs) then (c :: cs).drop pat.length
    else c :: replaceFirstAux pat cs

/-- `s.replace(pat, '')` in JavaScript: removes the first occurrence of
`pat` from `s` (the whole string is returned unchanged when `pat` does not
occur). Used by the handler to derive the database name:
`serviceSecret.username.replace('_user', '')`. -/
def replaceFirst (s pat : String) : String :=
  String.mk (replaceFirstAux pat.data s.data)

/-- `Array.prototype.join(sep)`. -/
def joinSep (sep : String) : List String → String
  | [] => ""
  | [x] => x
  | x :: xs => x ++ sep ++ joinSep sep xs

/-- `[a, b].filter(Boolean)` on two possibly-`undefined` strings: drops
`undefined` entries and empty strings (both falsy). -/
def namesOf (a b : Option String) : List String :=
  (([a, b]).filterMap id).filter (fun s => decide (s ≠ ""))

/-- The SQL statements the handler can issue, one constructor per statement
template in the source; `Stmt.text` renders the exact interpolated SQL text. -/
inductive Stmt where
  | selectDbExists (db : String)
  | createDatabase (db : String)
  | selectRoleExists (role : String)
  | createUser (role : String) (pw : String)
  | createExtension (ext : String) (sch : String)
  | grantConnect (db : String) (role : String)
  | grantCreate (db : String) (role : String)
  | createSchema (sch : String)
  | revokeCreatePublic
  | revokeAllPublic (db : String)
  | grantSchema (sch : String) (role : String)
  | alterDefaultPrivileges (sch : String) (role : String)
  | grantAllPrivileges (db : String) (role : String)
  | alterOwner (db : String) (role : String)
  | grantSelectAll (sch : String) (role : String)
  | grantReplication (role : String)
  | createPublication
deriving DecidableEq, Repr

/-- The literal SQL text of each statement, exactly as interpolated in the
source (including the lowercase `on`/`to` of the `GRANT ALL PRIVILEGES`
statement). -/
def Stmt.text : Stmt → String
  | .selectDbExists db =>
      "SELECT exists(SELECT FROM pg_catalog.pg_database WHERE lower(datname) = lower('" ++ db ++ "'))"
  | .createDatabase db => "CREATE DATABASE " ++ db
  | .selectRoleExists role => "SELECT exists(SELECT FROM pg_roles WHERE rolname='" ++ role ++ "')"
  | .createUser role pw => "CREATE USER " ++ role ++ " WITH ENCRYPTED PASSWORD '" ++ pw ++ "'"
  | .createExtension ext sch => "CREATE EXTENSION IF NOT EXISTS " ++ ext ++ " SCHEMA " ++ sch ++ " CASCADE"
  | .grantConnect db role => "GRANT CONNECT ON DATABASE " ++ db ++ " TO " ++ role
  | .grantCreate db role => "GRANT CREATE ON DATABASE " ++ db ++ " TO " ++ role
  | .createSchema sch => "CREATE SCHEMA IF NOT EXISTS " ++ sch
  | .revokeCreatePublic => "REVOKE CREATE ON SCHEMA public FROM PUBLIC"
  | .revokeAllPublic db => "REVOKE ALL ON DATABASE " ++ db ++ " FROM PUBLIC"
  | .grantSchema sch role => "GRANT USAGE, CREATE ON SCHEMA " ++ sch ++ " TO " ++ role
  | .alterDefaultPrivileges sch role =>
      "ALTER DEFAULT PRIVILEGES IN SCHEMA " ++ sch ++ " GRANT ALL PRIVILEGES ON TABLES TO " ++ role
  | .grantAllPrivileges db role => "GRANT ALL PRIVILEGES on DATABASE " ++ db ++ " to " ++ role
  | .alterOwner db role => "ALTER DATABASE " ++ db ++ " OWNER TO " ++ role
  | .grantSelectAll sch role => "GRANT SELECT ON ALL TABLES IN SCHEMA " ++ sch ++ " TO " ++ role
  | .grantReplication role => "GRANT rds_replication, rds_superuser TO " ++ role
  | .createPublication => "CREATE PUBLICATION IF NOT EXISTS cdc_publication FOR ALL TABLES"

/-- The four client connections the handler constructs, in source order:
`mainConn` (admin, no database), `serviceConn` (admin credential, target
database), `adminConn` (the fresh admin connection of the CDC phase) and
`cdcDbConn` (admin credential, target database, CDC grants). -/
inductive ConnId where
  | mainConn
  | serviceConn
  | adminConn
  | cdcDbConn
deriving DecidableEq, Repr

/-- Observable events of a run: connection lifecycle (`connect`/`close` for
`Client.connect`/`Client.end`) and, for every statement, the `console.log`
line emitted by `query` immediately followed by the submission itself.
`exec c s (some b)` records that the statement was answered and the `exists`
column of the first row of the reply was `b`; `exec c s none` records that
the statement was submitted and rejected (the query threw). -/
inductive Event where
  | connect (c : ConnId)
  | logLine (c : ConnId) (s : Stmt)
  | exec (c : ConnId) (s : Stmt) (ans : Option Bool)
  | close (c : ConnId)
deriving DecidableEq, Repr

/-- The statements submitted so far, in order. -/
def execStmts (tr : List Event) : List Stmt :=
  tr.filterMap fun e =>
    match e with
    | .exec _ s _ => some s
    | _ => none

/-- The external world: the secret store (`fetch sid` is the `SecretString`
of the secret, `none` when absent), `JSON.parse` as an oracle on payload
strings, and the database server, which given the history of statements
already executed either rejects the next statement (`fails`) or answers it
(`answer` is the `exists` column of the first row of the reply). -/
structure World where
  fetch : String → Option String
  parse : String → Except Unit JSValue
  answer : List Stmt → Stmt → Bool
  fails : List Stmt → Stmt → Bool

/-- The `query` helper of the source: logs the statement, submits it, and
either returns the reply's `exists` field or raises. -/
def queryS (w : World) (c : ConnId) (s : Stmt) (tr : List Event) :
    Except JSErr Bool × List Event :=
  let hist := execStmts tr
  if w.fails hist s then
    (.error .stmtError, tr ++ [.logLine c s, .exec c s none])
  else
    (.ok (w.answer hist s), tr ++ [.logLine c s, .exec c s (some (w.answer hist s))])

/-- Sequential execution of a statement list on one connection, aborting at
the first rejected statement (results of individual statements are ignored,
as in the grant phases of the source). -/
def seqStmts (w : World) (c : ConnId) (ss : List Stmt) (tr : List Event) :
    Except JSErr Unit × List Event :=
  match ss with
  | [] => (.ok (), tr)
  | s :: rest =>
    match queryS w c s tr with
    | (.error e, tr') => (.error e, tr')
    | (.ok _, tr') => seqStmts w c rest tr'

/-- The `if (!exists) CREATE …` idiom used for the database, the service role
and the CDC role: run the existence check, and issue the creation statement
only when the check answered `false`. -/
def checkThenCreate (w : World) (c : ConnId) (chk mk : Stmt) (tr : List Event) :
    Except JSErr Unit × List Event :=
  match queryS w c chk tr with
  | (.error e, tr') => (.error e, tr')
  | (.ok ex, tr') =>
    if ex then (.ok (), tr')
    else
      match queryS w c mk tr' with
      | (.error e, tr'') => (.error e, tr'')
      | (.ok _, tr'') => (.ok (), tr'')

/-- Admin phase (source lines 77–103): connect `mainConn`, ensure the
database and the service role exist, and close the connection on every exit
path (the `try`/`finally`). -/
def mainPhase (w : World) (db u pw : String) (tr : List Event) :
    Except JSErr Unit × List Event :=
  let tr1 := tr ++ [Event.connect .mainConn]
  let body :=
    match checkThenCreate w .mainConn (.selectDbExists db) (.createDatabase db) tr1 with
    | (.error e, tr2) => (.error e, tr2)
    | (.ok _, tr2) =>
      checkThenCreate w .mainConn (.selectRoleExists u) (.createUser u pw) tr2
  match body with
  | (r, tr3) => (r, tr3 ++ [Event.close .mainConn])

/-- The fixed service-role statement list of source lines 107–138, in source
order: the two extensions first, then the database grants, then
`CREATE SCHEMA IF NOT EXISTS` (fifth), the revocations, the schema grants,
the default-privileges alteration, the database-wide grant, and the
ownership transfer last. -/
def serviceStmts (db sch u : String) : List Stmt :=
  [ .createExtension "pg_trgm" sch,
    .createExtension "intarray" sch,
    .grantConnect db u,
    .grantCreate db u,
    .createSchema sch,
    .revokeCreatePublic,
    .revokeAllPublic db,
    .grantSchema sch u,
    .alterDefaultPrivileges sch u,
    .grantAllPrivileges db u,
    .alterOwner db u ]

/-- Service-role phase (source lines 105–141): connect `serviceConn`, run the
service statement list, close on every exit path. -/
def servicePhase (w : World) (db sch u : String) (tr : List Event) :
    Except JSErr Unit × List Event :=
  let tr1 := tr ++ [Event.connect .serviceConn]
  match seqStmts w .serviceConn (serviceStmts db sch u) tr1 with
  | (r, tr2) => (r, tr2 ++ [Event.close .serviceConn])

/-- CDC role-ensure phase (source lines 149–172): a fresh admin connection,
the role existence check with conditional `CREATE USER` (the `else {}` branch
is a no-op), closed on every exit path. -/
def cdcAdminPhase (w : World) (cu cp : String) (tr : List Event) :
    Except JSErr Unit × List Event :=
  let tr1 := tr ++ [Event.connect .adminConn]
  match checkThenCreate w .adminConn (.selectRoleExists cu) (.createUser cu cp) tr1 with
  | (r, tr2) => (r, tr2 ++ [Event.close .adminConn])

/-- The CDC grant statement list of source lines 185–202, in source order. -/
def cdcStmts (db sch cu : String) : List Stmt :=
  [ .grantConnect db cu,
    .grantSelectAll sch cu,
    .grantReplication cu,
    .createPublication ]

/-- CDC grant phase (source lines 175–205): connect `cdcDbConn` to the target
database, run the CDC grants and publication creation, close on every exit
path. -/
def cdcGrantPhase (w : World) (db sch cu : String) (tr : List Event) :
    Except JSErr Unit × List Event :=
  let tr1 := tr ++ [Event.connect .cdcDbConn]
  match seqStmts w .cdcDbConn (cdcStmts db sch cu) tr1 with
  | (r, tr2) => (r, tr2 ++ [Event.close .cdcDbConn])

/-- Everything the handler computes before opening any connection. -/
structure Setup where
  username : Option String
  password : Option String
  database : String
  schema : Option String
  cdcOpt : Option JSValue
deriving DecidableEq, Repr

/-- `JSON.parse((await …getSecretValue…).SecretString!)`: parsing an absent
`SecretString` throws (JSON.parse of `undefined`), as does a malformed
payload. -/
def fetchParse (w : World) (sid : String) : Except JSErr JSValue :=
  match w.fetch sid with
  | none => .error .parseError
  | some s =>
    match w.parse s with
    | .error _ => .error .parseError
    | .ok v => .ok v

/-- The conditional CDC secret resolution (source lines 41–55): skipped
(`none`) when the id is unset or empty, or when the `SecretString` is absent
or empty; a present non-empty payload is parsed, and a malformed payload is a
fatal parse error. -/
def cdcFetch (env : Env) (w : World) : Except JSErr (Option JSValue) :=
  match env.CDC_USER_SECRET with
  | none => .ok none
  | some cid =>
    if cid = "" then .ok none
    else
      match w.fetch cid with
      | none => .ok none
      | some raw =>
        if raw = "" then .ok none
        else
          match w.parse raw with
          | .error _ => .error .parseError
          | .ok v => .ok (some v)

/-- The pre-connection part of the handler (source lines 20–75), in source
order: resolve and parse the master and service secrets (fatal on failure),
conditionally resolve the CDC secret (skipped when the id is unset/empty or
the payload is absent/empty; a malformed payload is fatal), destructure the
service credential, derive the database name (`APP_DATABASE_NAME`, defaulting
to `username.replace('_user', '')`) and the schema name (`APP_SCHEMA_NAME`,
defaulting to the username verbatim), and access the master credential's
fields for the connection configs. -/
def setup (env : Env) (w : World) : Except JSErr Setup :=
  match fetchParse w env.MASTER_USER_SECRET with
  | .error e => .error e
  | .ok mainSecret =>
    match fetchParse w env.APP_USER_SECRET with
    | .error e => .error e
    | .ok serviceSecret =>
      match cdcFetch env w with
      | .error e => .error e
      | .ok cdcOpt =>
        match serviceSecret.memberUsername with
        | .error e => .error e
        | .ok username =>
          match serviceSecret.memberPassword with
          | .error e => .error e
          | .ok password =>
            let dbE : Except JSErr String :=
              match env.APP_DATABASE_NAME with
              | some d => .ok d
              | none =>
                match username with
                | none => .error .typeError
                | some un => .ok (replaceFirst un "_user")
            match dbE with
            | .error e => .error e
            | .ok database =>
              let schema : Option String :=
                match env.APP_SCHEMA_NAME with
                | some s => some s
                | none => username
              match mainSecret.memberUsername with
              | .error e => .error e
              | .ok _ =>
                match mainSecret.memberPassword with
                | .error e => .error e
                | .ok _ =>
                  .ok ⟨username, password, database, schema, cdcOpt⟩

/-- The object the handler resolves with on success. -/
structure HandlerResult where
  message : String
deriving DecidableEq, Repr

/-- The skip message of the `else` branch (source line 215). -/
def skipMessage : String :=
  "CDC_USER_SECRET not set; skipping CDC user/publication setup."

/-- The success message of the CDC branch (source line 211). -/
def readyMsg (db : String) (names : List String) : String :=
  "Database '" ++ db ++ "' for username(s) '" ++ joinSep " & " names ++ "' is ready for use!"

/-- The connection phases of the handler (source lines 77–217): admin
provisioning, service grants, and — when `cdcUserSecret` is truthy — the CDC
role-ensure and CDC grant phases followed by the success message listing the
truthy usernames; otherwise the skip message. -/
def runPhases (w : World) (st : Setup) : Except JSErr HandlerResult × List Event :=
  let db := st.database
  let uS := interp st.username
  let pS := interp st.password
  let schS := interp st.schema
  match mainPhase w db uS pS [] with
  | (.error e, tr) => (.error e, tr)
  | (.ok _, tr) =>
    match servicePhase w db schS uS tr with
    | (.error e, tr') => (.error e, tr')
    | (.ok _, tr') =>
      match st.cdcOpt with
      | some v =>
        if v.truthy then
          match cdcAdminPhase w (interp v.uname?) (interp v.pword?) tr' with
          | (.error e, tr'') => (.error e, tr'')
          | (.ok _, tr'') =>
            match cdcGrantPhase w db schS (interp v.uname?) tr'' with
            | (.error e, tr3) => (.error e, tr3)
            | (.ok _, tr3) =>
              (.ok ⟨readyMsg db (namesOf st.username v.uname?)⟩, tr3)
        else (.ok ⟨skipMessage⟩, tr')
      | none => (.ok ⟨skipMessage⟩, tr')

/-- The exported handler: pre-connection computation, then the phases; a
pre-connection failure propagates before any connection event occurs. -/
def handler (env : Env) (w : World) : Except JSErr HandlerResult × List Event :=
  match setup env w with
  | .error e => (.error e, [])
  | .ok st => runPhases w st

/-- The result a run resolves or rejects with. -/
def runRes (env : Env) (w : World) : Except JSErr HandlerResult :=
  (handler env w).1

/-- The event trace of a run. -/
def runEvents (env : Env) (w : World) : List Event :=
  (handler env w).2

/-- The CDC gate exactly as the source decides it: a configured (truthy)
`CDC_USER_SECRET`, a present non-empty `SecretString`, and a payload that
parses to a truthy value. No `username`/`password` field check is involved. -/
def cdcGate (env : Env) (w : World) : Bool :=
  match env.CDC_USER_SECRET with
  | none => false
  | some cid =>
    if cid = "" then false
    else
      match w.fetch cid with
      | none => false
      | some raw =>
        if raw = "" then false
        else
          match w.parse raw with
          | .error _ => false
          | .ok v => v.truthy

/-- The CDC gate as the specification words it: additionally requires the
parsed payload to carry both a `username` and a `password` field. Stated for
comparison with `cdcGate`, which is what the code implements. -/
def specCdcGate (env : Env) (w : World) : Bool :=
  match env.CDC_USER_SECRET with
  | none => false
  | some cid =>
    if cid = "" then false
    else
      match w.fetch cid with
      | none => false
      | some raw =>
        if raw = "" then false
        else
          match w.parse raw with
          | .error _ => false
          | .ok v => v.uname?.isSome && v.pword?.isSome

/-- Stripping a trailing `_user` suffix, as the specification describes the
database-name default (for comparison with `replaceFirst`, which is what the
code does). -/
def stripSuffixUser (u : String) : String :=
  if ("_user".data).isSuffixOf u.data then String.mk (u.data.take (u.data.length - 5))
  else u

/-- The connection an event belongs to. -/
def eventConn : Event → ConnId
  | .connect c => c
  | .logLine c _ => c
  | .exec c _ _ => c
  | .close c => c

/-- Whether an event belongs to the CDC phase (the fresh admin connection or
the CDC database connection). -/
def isCdcEvent (e : Event) : Bool :=
  match eventConn e with
  | .adminConn => true
  | .cdcDbConn => true
  | _ => false

/-- All events of a fragment are statements (log or submission) on the given
connection. -/
def onlyConn (c : ConnId) (l : List Event) : Prop :=
  ∀ e ∈ l, (∃ s, e = Event.logLine c s) ∨ (∃ s a, e = Event.exec c s a)

/-- A fragment made of consecutive log/submission pairs. -/
inductive Chunks : List Event → Prop where
  | nil : Chunks []
  | pair (c : ConnId) (s : Stmt) (a : Option Bool) (rest : List Event) :
      Chunks rest → Chunks (Event.logLine c s :: Event.exec c s a :: rest)

/-- Every submission is immediately preceded by the log line of the same
statement on the same connection (and every log line is immediately followed
by its submission). -/
def logsOk : List Event → Bool
  | [] => true
  | Event.exec _ _ _ :: _ => false
  | Event.logLine c s :: rest =>
    match rest with
    | Event.exec c' s' _ :: rest' => decide (c = c') && decide (s = s') && logsOk rest'
    | _ => false
  | _ :: rest => logsOk rest

/-- Connection-state automaton: scans a trace tracking the at-most-one open
connection; rejects a second concurrent `connect`, a statement on a closed or
different connection, and an unmatched `close`. `some none` at the end means
the whole trace was well-bracketed with every connection closed. -/
def scanOpen : Option ConnId → List Event → Option (Option ConnId)
  | st, [] => some st
  | none, Event.connect c :: es => scanOpen (some c) es
  | some c, Event.close c' :: es => if c = c' then scanOpen none es else none
  | some c, Event.logLine c' _ :: es => if c = c' then scanOpen (some c) es else none
  | some c, Event.exec c' _ _ :: es => if c = c' then scanOpen (some c) es else none
  | _, _ => none

/-- No rejected statement occurs in the fragment. -/
def failFree (l : List Event) : Prop :=
  ∀ c s, Event.exec c s none ∉ l

/-- Number of occurrences of an event in a trace. -/
def countEv (e : Event) (tr : List Event) : Nat :=
  (tr.filter fun x => decide (x = e)).length

/-- The `connect` events of a trace, in order. -/
def connectsOf (tr : List Event) : List ConnId :=
  tr.filterMap fun e =>
    match e with
    | .connect c => some c
    | _ => none

/-- The order in which the four connections can ever be opened. -/
def connOrder : List ConnId :=
  [.mainConn, .serviceConn, .adminConn, .cdcDbConn]

/-- A trace that is a sequence of complete connection blocks
`connect c, statements on c…, close c`, one block per listed connection. -/
inductive BlocksOf : List ConnId → List Event → Prop where
  | nil : BlocksOf [] []
  | cons (c : ConnId) (cs : List ConnId) (mids rest : List Event) :
      onlyConn c mids → Chunks mids → BlocksOf cs rest →
      BlocksOf (c :: cs) (Event.connect c :: (mids ++ Event.close c :: rest))

/-- A successfully answered log/submission pair. -/
def pairE2 (c : ConnId) (s : Stmt) (a : Bool) : List Event :=
  [Event.logLine c s, Event.exec c s (some a)]

/-- Events appended by a successful `checkThenCreate` starting from statement
history `h0`. -/
def ctcOkEvents (w : World) (c : ConnId) (chk mk : Stmt) (h0 : List Stmt) : List Event :=
  pairE2 c chk (w.answer h0 chk) ++
    (if w.answer h0 chk then [] else pairE2 c mk (w.answer (h0 ++ [chk]) mk))

/-- Statements submitted by a successful `checkThenCreate`. -/
def ctcOkStmts (w : World) (chk mk : Stmt) (h0 : List Stmt) : List Stmt :=
  chk :: (if w.answer h0 chk then [] else [mk])

/-- Events appended by a successful `seqStmts` starting from history `h0`. -/
def okPairs (w : World) (c : ConnId) (h0 : List Stmt) : List Stmt → List Event
  | [] => []
  | s :: ss => pairE2 c s (w.answer h0 s) ++ okPairs w c (h0 ++ [s]) ss

/-- The trace of a successful admin phase from history `h0`. -/
def mainOkEvents (w : World) (db u pw : String) (h0 : List Stmt) : List Event :=
  Event.connect .mainConn ::
    (ctcOkEvents w .mainConn (.selectDbExists db) (.createDatabase db) h0 ++
      ctcOkEvents w .mainConn (.selectRoleExists u) (.createUser u pw)
        (h0 ++ ctcOkStmts w (.selectDbExists db) (.createDatabase db) h0) ++
      [Event.close .mainConn])

/-- The trace of a successful service phase from history `h0`. -/
def svcOkEvents (w : World) (db sch u : String) (h0 : List Stmt) : List Event :=
  Event.connect .serviceConn ::
    (okPairs w .serviceConn h0 (serviceStmts db sch u) ++ [Event.close .serviceConn])

/-- The trace of a successful CDC role-ensure phase from history `h0`. -/
def cdcAdminOkEvents (w : World) (cu cp : String) (h0 : List Stmt) : List Event :=
  Event.connect .adminConn ::
    (ctcOkEvents w .adminConn (.selectRoleExists cu) (.createUser cu cp) h0 ++
      [Event.close .adminConn])

/-- The trace of a successful CDC grant phase from history `h0`. -/
def cdcGrantOkEvents (w : World) (db sch cu : String) (h0 : List Stmt) : List Event :=
  Event.connect .cdcDbConn ::
    (okPairs w .cdcDbConn h0 (cdcStmts db sch cu) ++ [Event.close .cdcDbConn])

/-- Truthiness of the optional parsed CDC payload (`if (cdcUserSecret)`). -/
def cdcTruthy : Option JSValue → Bool
  | some v => v.truthy
  | none => false

/-- The full trace of a successful run with setup `st`. -/
def okTrace (w : World) (st : Setup) : List Event :=
  let db := st.database
  let u := interp st.username
  let p := interp st.password
  let sch := interp st.schema
  let t1 := mainOkEvents w db u p []
  let t12 := t1 ++ svcOkEvents w db sch u (execStmts t1)
  match st.cdcOpt with
  | some v =>
    if v.truthy then
      let t123 := t12 ++ cdcAdminOkEvents w (interp v.uname?) (interp v.pword?) (execStmts t12)
      t123 ++ cdcGrantOkEvents w db sch (interp v.uname?) (execStmts t123)
    else t12
  | none => t12

/-- The message of a successful run with setup `st`. -/
def okMsg (st : Setup) : HandlerResult :=
  match st.cdcOpt with
  | some v =>
    if v.truthy then ⟨readyMsg st.database (namesOf st.username v.uname?)⟩
    else ⟨skipMessage⟩
  | none => ⟨skipMessage⟩

/-- A secret store holding (optional) payloads for the three secret ids used
by the concrete scenarios. -/
def fetchTable (m a c : Option String) : String → Option String := fun sid =>
  if sid = "master-id" then m
  else if sid = "app-id" then a
  else if sid = "cdc-id" then c
  else none

/-- A concrete `JSON.parse` oracle for the payloads used by the scenarios. -/
def parseTable : String → Except Unit JSValue := fun s =>
  if s = "mraw" then .ok (.vObj (some "admin_user") (some "admin_password"))
  else if s = "araw" then .ok (.vObj (some "myapp_user") (some "myapp_password"))
  else if s = "araw2" then .ok (.vObj (some "my_user_db") (some "pw2"))
  else if s = "craw" then .ok (.vObj (some "cdc_user") (some "cdc_password"))
  else if s = "\x7b\x7d" then .ok (.vObj none none)
  else .error ()

/-- Environment with explicit database/schema names and a CDC secret id. -/
def envFull : Env :=
  { MASTER_USER_SECRET := "master-id", APP_USER_SECRET := "app-id",
    CDC_USER_SECRET := some "cdc-id", APP_DATABASE_NAME := some "app_database",
    APP_SCHEMA_NAME := some "app_schema", RDS_HOST := "example" }

/-- Environment with no explicit database/schema names (defaults apply). -/
def envDefaults : Env :=
  { MASTER_USER_SECRET := "master-id", APP_USER_SECRET := "app-id",
    CDC_USER_SECRET := some "cdc-id", APP_DATABASE_NAME := none,
    APP_SCHEMA_NAME := none, RDS_HOST := "example" }

/-- Environment with `CDC_USER_SECRET` unset. -/
def envNoCdc : Env :=
  { MASTER_USER_SECRET := "master-id", APP_USER_SECRET := "app-id",
    CDC_USER_SECRET := none, APP_DATABASE_NAME := some "app_database",
    APP_SCHEMA_NAME := some "app_schema", RDS_HOST := "example" }

/-- Happy-path world: all secrets resolve with full credentials, every
existence check answers `false` (fresh target), no statement is rejected. -/
def wHappy : World :=
  { fetch := fetchTable (some "mraw") (some "araw") (some "craw"),
    parse := parseTable,
    answer := fun _ _ => false, fails := fun _ _ => false }

/-- Like `wHappy` but the CDC secret resolves to the payload `"\x7b\x7d"`: a
parseable, truthy object with neither `username` nor `password`. -/
def wEmptyObj : World :=
  { wHappy with fetch := fetchTable (some "mraw") (some "araw") (some "\x7b\x7d") }

/-- Like `wHappy` but the CDC secret's `SecretString` is absent. -/
def wCdcNoRaw : World :=
  { wHappy with fetch := fetchTable (some "mraw") (some "araw") none }

/-- Like `wHappy` but the master secret is absent. -/
def wNoMaster : World :=
  { wHappy with fetch := fetchTable none (some "araw") (some "craw") }

/-- Like `wHappy` but the service secret payload is malformed. -/
def wBadApp : World :=
  { wHappy with fetch := fetchTable (some "mraw") (some "not-json") (some "craw") }

/-- Like `wHappy` but the very first statement of the run is rejected. -/
def wFail0 : World :=
  { wHappy with fails := fun h _ => h.isEmpty }

/-- Like `wHappy` but the service credential's username is `"my_user_db"`,
whose only `_user` occurrence is not a trailing suffix. -/
def wC6 : World :=
  { wHappy with fetch := fetchTable (some "mraw") (some "araw2") (some "craw") }

/-- Like `wHappy` but every existence check answers `true`
(already-provisioned target). -/
def wAllTrue : World :=
  { wHappy with answer := fun _ _ => true }

/-- A database that answers role-existence checks truthfully with respect to
the roles created earlier in the same run: once `CREATE USER r …` has been
executed, a later `SELECT exists(… rolname='r')` answers `true`. -/
def TruthfulRoles (w : World) : Prop :=
  ∀ (h : List Stmt) (r pw : String),
    Stmt.createUser r pw ∈ h → w.answer h (.selectRoleExists r) = true

theorem execStmts_append (a b : List Event) :
    execStmts (a ++ b) = execStmts a ++ execStmts b := by
  simp [execStmts, List.filterMap_append]

theorem execStmts_pairE2 (c : ConnId) (s : Stmt) (a : Bool) :
    execStmts (pairE2 c s a) = [s] := rfl

theorem execStmts_snoc_pair (tr : List Event) (c : ConnId) (s : Stmt) (a : Bool) :
    execStmts (tr ++ pairE2 c s a) = execStmts tr ++ [s] := by
  rw [execStmts_append, execStmts_pairE2]

theorem queryS_isFalse {w : World} {s : Stmt} {tr : List Event} (c : ConnId)
    (h : w.fails (execStmts tr) s = false) :
    queryS w c s tr =
      (.ok (w.answer (execStmts tr) s), tr ++ pairE2 c s (w.answer (execStmts tr) s)) := by
  simp [queryS, h, pairE2]

theorem queryS_isTrue {w : World} {s : Stmt} {tr : List Event} (c : ConnId)
    (h : w.fails (execStmts tr) s = true) :
    queryS w c s tr = (.error .stmtError, tr ++ [Event.logLine c s, Event.exec c s none]) := by
  simp [queryS, h]

theorem checkThenCreate_ok {w : World} {c : ConnId} {chk mk : Stmt} {tr tr' : List Event}
    (h : checkThenCreate w c chk mk tr = (.ok (), tr')) :
    tr' = tr ++ ctcOkEvents w c chk mk (execStmts tr) := by
  unfold checkThenCreate at h
  cases hf : w.fails (execStmts tr) chk with
  | true => rw [queryS_isTrue c hf] at h; simp at h
  | false =>
    rw [queryS_isFalse c hf] at h
    cases ha : w.answer (execStmts tr) chk with
    | true =>
      rw [ha] at h
      simp at h
      simp [ctcOkEvents, ha, h]
    | false =>
      rw [ha] at h
      simp only [Bool.false_eq_true, if_false] at h
      have hf2 := h
      cases hf2' : w.fails (execStmts (tr ++ pairE2 c chk false)) mk with
      | true =>
        rw [queryS_isTrue c hf2'] at h; simp at h
      | false =>
        rw [queryS_isFalse c hf2'] at h
        simp at h
        rw [ctcOkEvents, ha]
        simp only [Bool.false_eq_true, if_false]
        rw [← h, execStmts_snoc_pair]

theorem seqStmts_ok {w : World} {c : ConnId} :
    ∀ (ss : List Stmt) (tr tr' : List Event),
      seqStmts w c ss tr = (.ok (), tr') → tr' = tr ++ okPairs w c (execStmts tr) ss := by
  intro ss
  induction ss with
  | nil =>
    intro tr tr' h
    simp [seqStmts] at h
    simp [okPairs, h]
  | cons s rest ih =>
    intro tr tr' h
    unfold seqStmts at h
    cases hf : w.fails (execStmts tr) s with
    | true => rw [queryS_isTrue c hf] at h; simp at h
    | false =>
      rw [queryS_isFalse c hf] at h
      simp only [] at h
      have h' := ih (tr ++ pairE2 c s (w.answer (execStmts tr) s)) tr' h
      rw [h', okPairs]
      simp [execStmts_snoc_pair]

theorem onlyConn_nil (c : ConnId) : onlyConn c [] := by
  intro e he; cases he

theorem onlyConn_append {c : ConnId} {a b : List Event}
    (ha : onlyConn c a) (hb : onlyConn c b) : onlyConn c (a ++ b) := by
  intro e he
  rcases List.mem_append.mp he with h | h
  · exact ha e h
  · exact hb e h

theorem onlyConn_pairE2 (c : ConnId) (s : Stmt) (a : Bool) : onlyConn c (pairE2 c s a) := by
  intro e he
  simp [pairE2] at he
  rcases he with rfl | rfl
  · exact Or.inl ⟨s, rfl⟩
  · exact Or.inr ⟨s, some a, rfl⟩

theorem onlyConn_failPair (c : ConnId) (s : Stmt) :
    onlyConn c [Event.logLine c s, Event.exec c s none] := by
  intro e he
  simp at he
  rcases he with rfl | rfl
  · exact Or.inl ⟨s, rfl⟩
  · exact Or.inr ⟨s, none, rfl⟩

theorem Chunks.append {a b : List Event} (ha : Chunks a) (hb : Chunks b) : Chunks (a ++ b) := by
  induction ha with
  | nil => exact hb
  | pair c s x rest _ ih => exact Chunks.pair c s x _ ih

theorem chunks_pairE2 (c : ConnId) (s : Stmt) (a : Bool) : Chunks (pairE2 c s a) :=
  Chunks.pair c s (some a) [] Chunks.nil

theorem chunks_failPair (c : ConnId) (s : Stmt) :
    Chunks [Event.logLine c s, Event.exec c s none] :=
  Chunks.pair c s none [] Chunks.nil

theorem failFree_nil : failFree [] := by
  intro c s h; cases h

theorem failFree_append {a b : List Event} (ha : failFree a) (hb : failFree b) :
    failFree (a ++ b) := by
  intro c s h
  rcases List.mem_append.mp h with h | h
  · exact ha c s h
  · exact hb c s h

theorem failFree_pairE2 (c : ConnId) (s : Stmt) (a : Bool) : failFree (pairE2 c s a) := by
  intro c' s' h
  simp [pairE2] at h

theorem ctcOkEvents_cases (w : World) (c : ConnId) (chk mk : Stmt) (h0 : List Stmt) :
    ctcOkEvents w c chk mk h0 = pairE2 c chk true ∧ w.answer h0 chk = true ∨
    ctcOkEvents w c chk mk h0 =
      pairE2 c chk false ++ pairE2 c mk (w.answer (h0 ++ [chk]) mk) ∧
      w.answer h0 chk = false := by
  cases ha : w.answer h0 chk with
  | true => exact Or.inl ⟨by simp [ctcOkEvents, ha], rfl⟩
  | false => exact Or.inr ⟨by simp [ctcOkEvents, ha], rfl⟩

theorem onlyConn_ctcOkEvents (w : World) (c : ConnId) (chk mk : Stmt) (h0 : List Stmt) :
    onlyConn c (ctcOkEvents w c chk mk h0) := by
  rcases ctcOkEvents_cases w c chk mk h0 with ⟨he, _⟩ | ⟨he, _⟩ <;> rw [he]
  · exact onlyConn_pairE2 c chk true
  · exact onlyConn_append (onlyConn_pairE2 c chk false) (onlyConn_pairE2 c mk _)

theorem chunks_ctcOkEvents (w : World) (c : ConnId) (chk mk : Stmt) (h0 : List Stmt) :
    Chunks (ctcOkEvents w c chk mk h0) := by
  rcases ctcOkEvents_cases w c chk mk h0 with ⟨he, _⟩ | ⟨he, _⟩ <;> rw [he]
  · exact chunks_pairE2 c chk true
  · exact (chunks_pairE2 c chk false).append (chunks_pairE2 c mk _)

theorem failFree_ctcOkEvents (w : World) (c : ConnId) (chk mk : Stmt) (h0 : List Stmt) :
    failFree (ctcOkEvents w c chk mk h0) := by
  rcases ctcOkEvents_cases w c chk mk h0 with ⟨he, _⟩ | ⟨he, _⟩ <;> rw [he]
  · exact failFree_pairE2 c chk true
  · exact failFree_append (failFree_pairE2 c chk false) (failFree_pairE2 c mk _)

theorem onlyConn_okPairs (w : World) (c : ConnId) :
    ∀ (ss : List Stmt) (h0 : List Stmt), onlyConn c (okPairs w c h0 ss) := by
  intro ss
  induction ss with
  | nil => intro h0; exact onlyConn_nil c
  | cons s rest ih =>
    intro h0
    rw [okPairs]
    exact onlyConn_append (onlyConn_pairE2 c s _) (ih _)

theorem chunks_okPairs (w : World) (c : ConnId) :
    ∀ (ss : List Stmt) (h0 : List Stmt), Chunks (okPairs w c h0 ss) := by
  intro ss
  induction ss with
  | nil => intro h0; exact Chunks.nil
  | cons s rest ih =>
    intro h0
    rw [okPairs]
    exact (chunks_pairE2 c s _).append (ih _)

theorem failFree_okPairs (w : World) (c : ConnId) :
    ∀ (ss : List Stmt) (h0 : List Stmt), failFree (okPairs w c h0 ss) := by
  intro ss
  induction ss with
  | nil => intro h0; exact failFree_nil
  | cons s rest ih =>
    intro h0
    rw [okPairs]
    exact failFree_append (failFree_pairE2 c s _) (ih _)

theorem okPairs_stmts (w : World) (c : ConnId) :
    ∀ (ss : List Stmt) (h0 : List Stmt), execStmts (okPairs w c h0 ss) = ss := by
  intro ss
  induction ss with
  | nil => intro h0; rfl
  | cons s rest ih =>
    intro h0
    rw [okPairs, execStmts_append, execStmts_pairE2, ih]
    rfl

theorem ctcOkEvents_stmts (w : World) (c : ConnId) (chk mk : Stmt) (h0 : List Stmt) :
    execStmts (ctcOkEvents w c chk mk h0) = ctcOkStmts w chk mk h0 := by
  rcases ctcOkEvents_cases w c chk mk h0 with ⟨he, ha⟩ | ⟨he, ha⟩ <;>
    rw [he, ctcOkStmts, ha]
  · rfl
  · rw [execStmts_append, execStmts_pairE2, execStmts_pairE2]
    rfl

theorem checkThenCreate_shape (w : World) (c : ConnId) (chk mk : Stmt) (tr : List Event) :
    ∃ r mids, checkThenCreate w c chk mk tr = (r, tr ++ mids) ∧
      onlyConn c mids ∧ Chunks mids ∧
      (r = .ok () → failFree mids) ∧
      (∀ e, r = .error e → e = .stmtError ∧
        ∃ mids0 s, mids = mids0 ++ [Event.logLine c s, Event.exec c s none] ∧ failFree mids0) := by
  cases hf : w.fails (execStmts tr) chk with
  | true =>
    refine ⟨.error .stmtError, [Event.logLine c chk, Event.exec c chk none], ?_,
      onlyConn_failPair c chk, chunks_failPair c chk, ?_, ?_⟩
    · unfold checkThenCreate
      rw [queryS_isTrue c hf]
    · intro h; cases h
    · intro e he
      cases he
      exact ⟨rfl, [], chk, by simp, failFree_nil⟩
  | false =>
    cases ha : w.answer (execStmts tr) chk with
    | true =>
      refine ⟨.ok (), pairE2 c chk true, ?_, onlyConn_pairE2 c chk true,
        chunks_pairE2 c chk true, fun _ => failFree_pairE2 c chk true, ?_⟩
      · unfold checkThenCreate
        rw [queryS_isFalse c hf, ha]
        simp
      · intro e he; cases he
    | false =>
      cases hf2 : w.fails (execStmts tr ++ [chk]) mk with
      | true =>
        refine ⟨.error .stmtError,
          pairE2 c chk false ++ [Event.logLine c mk, Event.exec c mk none], ?_,
          onlyConn_append (onlyConn_pairE2 c chk false) (onlyConn_failPair c mk),
          (chunks_pairE2 c chk false).append (chunks_failPair c mk), ?_, ?_⟩
        · unfold checkThenCreate
          rw [queryS_isFalse c hf, ha]
          simp only [Bool.false_eq_true, if_false]
          have hf2' : w.fails (execStmts (tr ++ pairE2 c chk false)) mk = true := by
            rw [execStmts_snoc_pair]; exact hf2
          rw [queryS_isTrue c hf2']
          simp
        · intro h; cases h
        · intro e he
          cases he
          exact ⟨rfl, pairE2 c chk false, mk, rfl, failFree_pairE2 c chk false⟩
      | false =>
        refine ⟨.ok (), pairE2 c chk false ++ pairE2 c mk (w.answer (execStmts tr ++ [chk]) mk),
          ?_, onlyConn_append (onlyConn_pairE2 c chk false) (onlyConn_pairE2 c mk _),
          (chunks_pairE2 c chk false).append (chunks_pairE2 c mk _),
          fun _ => failFree_append (failFree_pairE2 c chk false) (failFree_pairE2 c mk _), ?_⟩
        · unfold checkThenCreate
          rw [queryS_isFalse c hf, ha]
          simp only [Bool.false_eq_true, if_false]
          have hf2' : w.fails (execStmts (tr ++ pairE2 c chk false)) mk = false := by
            rw [execStmts_snoc_pair]; exact hf2
          rw [queryS_isFalse c hf2']
          simp [execStmts_snoc_pair]
        · intro e he; cases he

theorem seqStmts_shape (w : World) (c : ConnId) :
    ∀ (ss : List Stmt) (tr : List Event),
      ∃ r mids, seqStmts w c ss tr = (r, tr ++ mids) ∧
        onlyConn c mids ∧ Chunks mids ∧
        (r = .ok () → failFree mids) ∧
        (∀ e, r = .error e → e = .stmtError ∧
          ∃ mids0 s, mids = mids0 ++ [Event.logLine c s, Event.exec c s none] ∧ failFree mids0) := by
  intro ss
  induction ss with
  | nil =>
    intro tr
    refine ⟨.ok (), [], by simp [seqStmts], onlyConn_nil c, Chunks.nil,
      fun _ => failFree_nil, ?_⟩
    intro e he; cases he
  | cons s rest ih =>
    intro tr
    cases hf : w.fails (execStmts tr) s with
    | true =>
      refine ⟨.error .stmtError, [Event.logLine c s, Event.exec c s none], ?_,
        onlyConn_failPair c s, chunks_failPair c s, ?_, ?_⟩
      · unfold seqStmts
        rw [queryS_isTrue c hf]
      · intro h; cases h
      · intro e he
        cases he
        exact ⟨rfl, [], s, by simp, failFree_nil⟩
    | false =>
      obtain ⟨r, mids, heq, honly, hch, hok, herr⟩ :=
        ih (tr ++ pairE2 c s (w.answer (execStmts tr) s))
      refine ⟨r, pairE2 c s (w.answer (execStmts tr) s) ++ mids, ?_,
        onlyConn_append (onlyConn_pairE2 c s _) honly,
        (chunks_pairE2 c s _).append hch, ?_, ?_⟩
      · unfold seqStmts
        rw [queryS_isFalse c hf]
        simp only []
        rw [heq, List.append_assoc]
      · intro h
        exact failFree_append (failFree_pairE2 c s _) (hok h)
      · intro e he
        obtain ⟨he', mids0, s', hm, hff⟩ := herr e he
        exact ⟨he', pairE2 c s _ ++ mids0, s', by rw [hm, List.append_assoc],
          failFree_append (failFree_pairE2 c s _) hff⟩

theorem execStmts_snoc_connect (tr : List Event) (c : ConnId) :
    execStmts (tr ++ [Event.connect c]) = execStmts tr := by
  rw [execStmts_append]; simp [execStmts]

theorem execStmts_snoc_close (tr : List Event) (c : ConnId) :
    execStmts (tr ++ [Event.close c]) = execStmts tr := by
  rw [execStmts_append]; simp [execStmts]

theorem execStmts_nil : execStmts ([] : List Event) = [] := rfl

theorem execStmts_connect (c : ConnId) : execStmts [Event.connect c] = [] := rfl

theorem execStmts_cons_connect (c : ConnId) (l : List Event) :
    execStmts (Event.connect c :: l) = execStmts l := rfl

theorem mainPhase_ok {w : World} {db u pw : String} {tr tr' : List Event}
    (h : mainPhase w db u pw tr = (.ok (), tr')) :
    tr' = tr ++ mainOkEvents w db u pw (execStmts tr) := by
  simp only [mainPhase] at h
  rcases h1 : checkThenCreate w .mainConn (.selectDbExists db) (.createDatabase db)
      (tr ++ [Event.connect .mainConn]) with ⟨r1, tr2⟩
  rw [h1] at h
  cases r1 with
  | error e => simp at h
  | ok u1 =>
    dsimp only at h
    rcases h2 : checkThenCreate w .mainConn (.selectRoleExists u) (.createUser u pw) tr2
      with ⟨r2, tr3⟩
    rw [h2] at h
    cases r2 with
    | error e => simp at h
    | ok u2 =>
      simp at h
      cases u1; cases u2
      have e1 := checkThenCreate_ok h1
      have e2 := checkThenCreate_ok h2
      rw [← h, e2, e1]
      simp [mainOkEvents, ctcOkEvents_stmts, execStmts_append, execStmts_connect,
        execStmts_cons_connect, execStmts_nil, List.append_assoc]

theorem mainPhase_shape (w : World) (db u pw : String) (tr : List Event) :
    ∃ r mids, mainPhase w db u pw tr =
        (r, tr ++ ([Event.connect .mainConn] ++ mids ++ [Event.close .mainConn])) ∧
      onlyConn .mainConn mids ∧ Chunks mids ∧
      (r = .ok () → failFree mids) ∧
      (∀ e, r = .error e → e = .stmtError ∧
        ∃ mids0 s, mids = mids0 ++ [Event.logLine .mainConn s, Event.exec .mainConn s none] ∧
          failFree mids0) := by
  obtain ⟨r1, mids1, heq1, ho1, hc1, hff1, herr1⟩ :=
    checkThenCreate_shape w .mainConn (.selectDbExists db) (.createDatabase db)
      (tr ++ [Event.connect .mainConn])
  cases r1 with
  | error e =>
    obtain ⟨he, mids0, s, hm, hff0⟩ := herr1 e rfl
    refine ⟨.error e, mids1, ?_, ho1, hc1, ?_, ?_⟩
    · simp only [mainPhase]
      rw [heq1]
      simp [List.append_assoc]
    · intro hcontra; cases hcontra
    · intro e' he'
      cases he'
      exact ⟨he, mids0, s, hm, hff0⟩
  | ok u1 =>
    cases u1
    obtain ⟨r2, mids2, heq2, ho2, hc2, hff2, herr2⟩ :=
      checkThenCreate_shape w .mainConn (.selectRoleExists u) (.createUser u pw)
        ((tr ++ [Event.connect .mainConn]) ++ mids1)
    refine ⟨r2, mids1 ++ mids2, ?_, onlyConn_append ho1 ho2, hc1.append hc2, ?_, ?_⟩
    · simp only [mainPhase]
      rw [heq1]
      dsimp only
      rw [heq2]
      simp [List.append_assoc]
    · intro h
      exact failFree_append (hff1 rfl) (hff2 h)
    · intro e he
      obtain ⟨he', mids0, s, hm, hff0⟩ := herr2 e he
      exact ⟨he', mids1 ++ mids0, s, by rw [hm, List.append_assoc],
        failFree_append (hff1 rfl) hff0⟩

theorem servicePhase_ok {w : World} {db sch u : String} {tr tr' : List Event}
    (h : servicePhase w db sch u tr = (.ok (), tr')) :
    tr' = tr ++ svcOkEvents w db sch u (execStmts tr) := by
  simp only [servicePhase] at h
  rcases h1 : seqStmts w .serviceConn (serviceStmts db sch u) (tr ++ [Event.connect .serviceConn])
    with ⟨r1, tr2⟩
  rw [h1] at h
  cases r1 with
  | error e => simp at h
  | ok u1 =>
    simp at h
    cases u1
    have e1 := seqStmts_ok _ _ _ h1
    rw [← h, e1]
    simp [svcOkEvents, execStmts_snoc_connect, List.append_assoc]

theorem servicePhase_shape (w : World) (db sch u : String) (tr : List Event) :
    ∃ r mids, servicePhase w db sch u tr =
        (r, tr ++ ([Event.connect .serviceConn] ++ mids ++ [Event.close .serviceConn])) ∧
      onlyConn .serviceConn mids ∧ Chunks mids ∧
      (r = .ok () → failFree mids) ∧
      (∀ e, r = .error e → e = .stmtError ∧
        ∃ mids0 s, mids = mids0 ++ [Event.logLine .serviceConn s, Event.exec .serviceConn s none] ∧
          failFree mids0) := by
  obtain ⟨r1, mids1, heq1, ho1, hc1, hff1, herr1⟩ :=
    seqStmts_shape w .serviceConn (serviceStmts db sch u) (tr ++ [Event.connect .serviceConn])
  refine ⟨r1, mids1, ?_, ho1, hc1, hff1, herr1⟩
  simp only [servicePhase]
  rw [heq1]
  simp [List.append_assoc]

theorem cdcAdminPhase_ok {w : World} {cu cp : String} {tr tr' : List Event}
    (h : cdcAdminPhase w cu cp tr = (.ok (), tr')) :
    tr' = tr ++ cdcAdminOkEvents w cu cp (execStmts tr) := by
  simp only [cdcAdminPhase] at h
  rcases h1 : checkThenCreate w .adminConn (.selectRoleExists cu) (.createUser cu cp)
      (tr ++ [Event.connect .adminConn]) with ⟨r1, tr2⟩
  rw [h1] at h
  cases r1 with
  | error e => simp at h
  | ok u1 =>
    simp at h
    cases u1
    have e1 := checkThenCreate_ok h1
    rw [← h, e1]
    simp [cdcAdminOkEvents, execStmts_snoc_connect, List.append_assoc]

theorem cdcAdminPhase_shape (w : World) (cu cp : String) (tr : List Event) :
    ∃ r mids, cdcAdminPhase w cu cp tr =
        (r, tr ++ ([Event.connect .adminConn] ++ mids ++ [Event.close .adminConn])) ∧
      onlyConn .adminConn mids ∧ Chunks mids ∧
      (r = .ok () → failFree mids) ∧
      (∀ e, r = .error e → e = .stmtError ∧
        ∃ mids0 s, mids = mids0 ++ [Event.logLine .adminConn s, Event.exec .adminConn s none] ∧
          failFree mids0) := by
  obtain ⟨r1, mids1, heq1, ho1, hc1, hff1, herr1⟩ :=
    checkThenCreate_shape w .adminConn (.selectRoleExists cu) (.createUser cu cp)
      (tr ++ [Event.connect .adminConn])
  refine ⟨r1, mids1, ?_, ho1, hc1, hff1, herr1⟩
  simp only [cdcAdminPhase]
  rw [heq1]
  simp [List.append_assoc]

theorem cdcGrantPhase_ok {w : World} {db sch cu : String} {tr tr' : List Event}
    (h : cdcGrantPhase w db sch cu tr = (.ok (), tr')) :
    tr' = tr ++ cdcGrantOkEvents w db sch cu (execStmts tr) := by
  simp only [cdcGrantPhase] at h
  rcases h1 : seqStmts w .cdcDbConn (cdcStmts db sch cu) (tr ++ [Event.connect .cdcDbConn])
    with ⟨r1, tr2⟩
  rw [h1] at h
  cases r1 with
  | error e => simp at h
  | ok u1 =>
    simp at h
    cases u1
    have e1 := seqStmts_ok _ _ _ h1
    rw [← h, e1]
    simp [cdcGrantOkEvents, execStmts_snoc_connect, List.append_assoc]

theorem cdcGrantPhase_shape (w : World) (db sch cu : String) (tr : List Event) :
    ∃ r mids, cdcGrantPhase w db sch cu tr =
        (r, tr ++ ([Event.connect .cdcDbConn] ++ mids ++ [Event.close .cdcDbConn])) ∧
      onlyConn .cdcDbConn mids ∧ Chunks mids ∧
      (r = .ok () → failFree mids) ∧
      (∀ e, r = .error e → e = .stmtError ∧
        ∃ mids0 s, mids = mids0 ++ [Event.logLine .cdcDbConn s, Event.exec .cdcDbConn s none] ∧
          failFree mids0) := by
  obtain ⟨r1, mids1, heq1, ho1, hc1, hff1, herr1⟩ :=
    seqStmts_shape w .cdcDbConn (cdcStmts db sch cu) (tr ++ [Event.connect .cdcDbConn])
  refine ⟨r1, mids1, ?_, ho1, hc1, hff1, herr1⟩
  simp only [cdcGrantPhase]
  rw [heq1]
  simp [List.append_assoc]

theorem runPhases_ok {w : World} {st : Setup} {m : HandlerResult} {tr : List Event}
    (h : runPhases w st = (.ok m, tr)) :
    tr = okTrace w st ∧ m = okMsg st := by
  simp only [runPhases] at h
  rcases h1 : mainPhase w st.database (interp st.username) (interp st.password) []
    with ⟨r1, tr1⟩
  rw [h1] at h
  cases r1 with
  | error e => simp at h
  | ok u1 =>
    cases u1
    dsimp only at h
    rcases h2 : servicePhase w st.database (interp st.schema) (interp st.username) tr1
      with ⟨r2, tr2⟩
    rw [h2] at h
    cases r2 with
    | error e => simp at h
    | ok u2 =>
      cases u2
      dsimp only at h
      have e1 := mainPhase_ok h1
      have e2 := servicePhase_ok h2
      rcases hc : st.cdcOpt with _ | v
      · rw [hc] at h
        dsimp only at h
        obtain ⟨hm, htr⟩ := Prod.mk.injEq .. ▸ h
        simp at hm htr
        subst htr
        refine ⟨?_, ?_⟩
        · rw [e2, e1]
          simp only [okTrace, hc]
          simp [execStmts_nil]
        · simp [okMsg, hc, hm]
      · rw [hc] at h
        dsimp only at h
        cases ht : v.truthy with
        | false =>
          rw [ht] at h
          simp only [Bool.false_eq_true, if_false] at h
          obtain ⟨hm, htr⟩ := Prod.mk.injEq .. ▸ h
          simp at hm htr
          subst htr
          refine ⟨?_, ?_⟩
          · rw [e2, e1]
            simp only [okTrace, hc, ht]
            simp [execStmts_nil]
          · simp [okMsg, hc, ht, hm]
        | true =>
          rw [ht] at h
          simp only [if_true] at h
          rcases h3 : cdcAdminPhase w (interp v.uname?) (interp v.pword?) tr2
            with ⟨r3, tr3⟩
          rw [h3] at h
          cases r3 with
          | error e => simp at h
          | ok u3 =>
            cases u3
            dsimp only at h
            rcases h4 : cdcGrantPhase w st.database (interp st.schema) (interp v.uname?) tr3
              with ⟨r4, tr4⟩
            rw [h4] at h
            cases r4 with
            | error e => simp at h
            | ok u4 =>
              cases u4
              dsimp only at h
              obtain ⟨hm, htr⟩ := Prod.mk.injEq .. ▸ h
              simp at hm htr
              subst htr
              have e3 := cdcAdminPhase_ok h3
              have e4 := cdcGrantPhase_ok h4
              refine ⟨?_, ?_⟩
              · rw [e4, e3, e2, e1]
                simp only [okTrace, hc, ht, if_true]
                simp [execStmts_nil]
              · simp [okMsg, hc, ht, hm]

theorem handler_ok {env : Env} {w : World} {m : HandlerResult}
    (h : runRes env w = .ok m) :
    ∃ st, setup env w = .ok st ∧
      runEvents env w = okTrace w st ∧ m = okMsg st := by
  unfold runRes handler at h
  unfold runEvents handler
  cases hs : setup env w with
  | error e => rw [hs] at h; simp at h
  | ok st =>
    rw [hs] at h
    dsimp only at h ⊢
    rcases hr : runPhases w st with ⟨r, tr⟩
    rw [hr] at h
    cases r with
    | error e => simp at h
    | ok m' =>
      simp at h
      subst h
      obtain ⟨htr, hm⟩ := runPhases_ok hr
      exact ⟨st, rfl, htr, hm⟩

theorem failFree_connect (c : ConnId) : failFree [Event.connect c] := by
  intro c' s' h; simp at h

theorem failFree_close (c : ConnId) : failFree [Event.close c] := by
  intro c' s' h; simp at h

theorem failFree_log (c : ConnId) (s : Stmt) : failFree [Event.logLine c s] := by
  intro c' s' h; simp at h

theorem BlocksOf.consAppend {c : ConnId} {cs : List ConnId} {mids rest : List Event}
    (h1 : onlyConn c mids) (h2 : Chunks mids) (h3 : BlocksOf cs rest) :
    BlocksOf (c :: cs) ([Event.connect c] ++ mids ++ [Event.close c] ++ rest) := by
  have := BlocksOf.cons c cs mids rest h1 h2 h3
  simpa [List.append_assoc] using this

theorem countEv_cons (e x : Event) (l : List Event) :
    countEv e (x :: l) = (if x = e then 1 else 0) + countEv e l := by
  unfold countEv
  rw [List.filter_cons]
  split
  · simp only [List.length_cons]
    next hx => simp at hx; simp [hx]; omega
  · next hx => simp at hx; simp [hx]

theorem countEv_append (e : Event) (a b : List Event) :
    countEv e (a ++ b) = countEv e a + countEv e b := by
  unfold countEv
  rw [List.filter_append, List.length_append]

theorem countEv_nil (e : Event) : countEv e [] = 0 := rfl

theorem countEv_connect_onlyConn {c : ConnId} {mids : List Event} (ho : onlyConn c mids)
    (c' : ConnId) : countEv (Event.connect c') mids = 0 := by
  unfold countEv
  rw [List.length_eq_zero]
  rw [List.filter_eq_nil]
  intro e he
  rcases ho e he with ⟨s, rfl⟩ | ⟨s, a, rfl⟩ <;> simp

theorem countEv_close_onlyConn {c : ConnId} {mids : List Event} (ho : onlyConn c mids)
    (c' : ConnId) : countEv (Event.close c') mids = 0 := by
  unfold countEv
  rw [List.length_eq_zero]
  rw [List.filter_eq_nil]
  intro e he
  rcases ho e he with ⟨s, rfl⟩ | ⟨s, a, rfl⟩ <;> simp

theorem blocksOf_counts {cs : List ConnId} {tr : List Event} (hb : BlocksOf cs tr)
    (hnd : cs.Nodup) (c : ConnId) :
    countEv (Event.connect c) tr = (if c ∈ cs then 1 else 0) ∧
    countEv (Event.close c) tr = (if c ∈ cs then 1 else 0) := by
  induction hb with
  | nil => simp [countEv_nil]
  | cons c' cs' mids rest ho hch hrest ih =>
    have hnd' : cs'.Nodup := hnd.of_cons
    have hninc : c' ∉ cs' := by
      intro hmem
      exact (List.nodup_cons.mp hnd).1 hmem
    obtain ⟨ihc, ihcl⟩ := ih hnd'
    constructor
    · rw [countEv_cons, countEv_append, countEv_cons,
        countEv_connect_onlyConn ho, ihc]
      by_cases hcc : c = c'
      · subst hcc
        simp [hninc]
      · have : ¬(Event.connect c' = Event.connect c) := by simp [Ne.symm hcc]
        simp [this, hcc, Ne.symm hcc]
    · rw [countEv_cons, countEv_append, countEv_cons,
        countEv_close_onlyConn ho, ihcl]
      by_cases hcc : c = c'
      · subst hcc
        simp [hninc]
      · have : ¬(Event.close c' = Event.close c) := by simp [Ne.symm hcc]
        simp [this, hcc, Ne.symm hcc]

theorem scanOpen_chunksFrag {c : ConnId} {mids : List Event} (ho : onlyConn c mids) :
    ∀ l : List Event, scanOpen (some c) (mids ++ l) = scanOpen (some c) l := by
  induction mids with
  | nil => intro l; rfl
  | cons e rest ih =>
    intro l
    have hrest : onlyConn c rest := fun x hx => ho x (List.mem_cons_of_mem e hx)
    rcases ho e (List.mem_cons_self e rest) with ⟨s, rfl⟩ | ⟨s, a, rfl⟩ <;>
      simp [scanOpen, ih hrest l]

theorem blocksOf_scanOpen {cs : List ConnId} {tr : List Event} (hb : BlocksOf cs tr) :
    scanOpen none tr = some none := by
  induction hb with
  | nil => rfl
  | cons c cs' mids rest ho hch hrest ih =>
    show scanOpen none (Event.connect c :: (mids ++ Event.close c :: rest)) = some none
    rw [scanOpen, scanOpen_chunksFrag ho]
    simp [scanOpen, ih]

theorem connectsOf_append (a b : List Event) :
    connectsOf (a ++ b) = connectsOf a ++ connectsOf b := by
  simp [connectsOf, List.filterMap_append]

theorem connectsOf_onlyConn {c : ConnId} {mids : List Event} (ho : onlyConn c mids) :
    connectsOf mids = [] := by
  unfold connectsOf
  rw [List.filterMap_eq_nil]
  intro e he
  rcases ho e he with ⟨s, rfl⟩ | ⟨s, a, rfl⟩ <;> rfl

theorem blocksOf_connectsOf {cs : List ConnId} {tr : List Event} (hb : BlocksOf cs tr) :
    connectsOf tr = cs := by
  induction hb with
  | nil => rfl
  | cons c cs' mids rest ho hch hrest ih =>
    show connectsOf (Event.connect c :: (mids ++ Event.close c :: rest)) = c :: cs'
    have h1 : connectsOf (Event.connect c :: (mids ++ Event.close c :: rest)) =
        c :: connectsOf (mids ++ Event.close c :: rest) := rfl
    rw [h1, connectsOf_append, connectsOf_onlyConn ho]
    have h2 : connectsOf (Event.close c :: rest) = connectsOf rest := rfl
    rw [h2, ih]
    rfl

theorem runPhases_struct (w : World) (st : Setup) :
    (∃ k, BlocksOf (connOrder.take k) (runPhases w st).2) ∧
    (∀ e tr, runPhases w st = (.error e, tr) →
      e = .stmtError ∧ ∃ l c s,
        tr = l ++ [Event.exec c s none, Event.close c] ∧ failFree l) := by
  obtain ⟨r1, mids1, heq1, ho1, hc1, hff1, herr1⟩ :=
    mainPhase_shape w st.database (interp st.username) (interp st.password) []
  cases r1 with
  | error e1 =>
    obtain ⟨he1, mids0, s0, hm0, hff0⟩ := herr1 e1 rfl
    refine ⟨⟨1, ?_⟩, ?_⟩
    · simp only [runPhases, heq1]
      simpa [List.append_assoc] using BlocksOf.consAppend ho1 hc1 BlocksOf.nil
    · intro e tr htr
      simp only [runPhases, heq1] at htr
      obtain ⟨hee, htr'⟩ := Prod.mk.injEq .. ▸ htr
      simp at hee htr'
      refine ⟨by rw [← hee]; exact he1, [Event.connect .mainConn] ++ mids0 ++
        [Event.logLine .mainConn s0], .mainConn, s0, ?_, ?_⟩
      · rw [← htr', hm0]
        simp [List.append_assoc]
      · exact failFree_append (failFree_append (failFree_connect _) hff0)
          (failFree_log _ _)
  | ok u1 =>
    cases u1
    obtain ⟨r2, mids2, heq2, ho2, hc2, hff2, herr2⟩ :=
      servicePhase_shape w st.database (interp st.schema) (interp st.username)
        ([] ++ ([Event.connect .mainConn] ++ mids1 ++ [Event.close .mainConn]))
    have hffB1 : failFree ([Event.connect .mainConn] ++ mids1 ++ [Event.close .mainConn]) :=
      failFree_append (failFree_append (failFree_connect _) (hff1 rfl)) (failFree_close _)
    cases r2 with
    | error e2 =>
      obtain ⟨he2, mids0, s0, hm0, hff0⟩ := herr2 e2 rfl
      refine ⟨⟨2, ?_⟩, ?_⟩
      · simp only [runPhases, heq1, heq2]
        simpa [List.append_assoc] using
          BlocksOf.consAppend ho1 hc1 (BlocksOf.consAppend ho2 hc2 BlocksOf.nil)
      · intro e tr htr
        simp only [runPhases, heq1, heq2] at htr
        obtain ⟨hee, htr'⟩ := Prod.mk.injEq .. ▸ htr
        simp at hee htr'
        refine ⟨by rw [← hee]; exact he2,
          ([Event.connect .mainConn] ++ mids1 ++ [Event.close .mainConn]) ++
            ([Event.connect .serviceConn] ++ mids0 ++ [Event.logLine .serviceConn s0]),
          .serviceConn, s0, ?_, ?_⟩
        · rw [← htr', hm0]
          simp [List.append_assoc]
        · exact failFree_append hffB1 (failFree_append
            (failFree_append (failFree_connect _) hff0) (failFree_log _ _))
    | ok u2 =>
      cases u2
      have hffB2 : failFree ([Event.connect .serviceConn] ++ mids2 ++ [Event.close .serviceConn]) :=
        failFree_append (failFree_append (failFree_connect _) (hff2 rfl)) (failFree_close _)
      rcases hcdc : st.cdcOpt with _ | v
      · refine ⟨⟨2, ?_⟩, ?_⟩
        · simp only [runPhases, heq1, heq2, hcdc]
          simpa [List.append_assoc] using
            BlocksOf.consAppend ho1 hc1 (BlocksOf.consAppend ho2 hc2 BlocksOf.nil)
        · intro e tr htr
          simp only [runPhases, heq1, heq2, hcdc] at htr
          simp at htr
      · cases ht : v.truthy with
        | false =>
          refine ⟨⟨2, ?_⟩, ?_⟩
          · simp only [runPhases, heq1, heq2, hcdc, ht]
            simp only [Bool.false_eq_true, if_false]
            simpa [List.append_assoc] using
              BlocksOf.consAppend ho1 hc1 (BlocksOf.consAppend ho2 hc2 BlocksOf.nil)
          · intro e tr htr
            simp only [runPhases, heq1, heq2, hcdc, ht] at htr
            simp at htr
        | true =>
          obtain ⟨r3, mids3, heq3, ho3, hc3, hff3, herr3⟩ :=
            cdcAdminPhase_shape w (interp v.uname?) (interp v.pword?)
              (([] ++ ([Event.connect .mainConn] ++ mids1 ++ [Event.close .mainConn])) ++
                ([Event.connect .serviceConn] ++ mids2 ++ [Event.close .serviceConn]))
          cases r3 with
          | error e3 =>
            obtain ⟨he3, mids0, s0, hm0, hff0⟩ := herr3 e3 rfl
            refine ⟨⟨3, ?_⟩, ?_⟩
            · simp only [runPhases, heq1, heq2, hcdc, ht, if_true, heq3]
              simpa [List.append_assoc] using
                BlocksOf.consAppend ho1 hc1 (BlocksOf.consAppend ho2 hc2
                  (BlocksOf.consAppend ho3 hc3 BlocksOf.nil))
            · intro e tr htr
              simp only [runPhases, heq1, heq2, hcdc, ht, if_true, heq3] at htr
              obtain ⟨hee, htr'⟩ := Prod.mk.injEq .. ▸ htr
              simp at hee htr'
              refine ⟨by rw [← hee]; exact he3,
                ([Event.connect .mainConn] ++ mids1 ++ [Event.close .mainConn]) ++
                  ([Event.connect .serviceConn] ++ mids2 ++ [Event.close .serviceConn]) ++
                  ([Event.connect .adminConn] ++ mids0 ++ [Event.logLine .adminConn s0]),
                .adminConn, s0, ?_, ?_⟩
              · rw [← htr', hm0]
                simp [List.append_assoc]
              · exact failFree_append (failFree_append hffB1 hffB2)
                  (failFree_append (failFree_append (failFree_connect _) hff0)
                    (failFree_log _ _))
          | ok u3 =>
            cases u3
            have hffB3 : failFree
                ([Event.connect .adminConn] ++ mids3 ++ [Event.close .adminConn]) :=
              failFree_append (failFree_append (failFree_connect _) (hff3 rfl))
                (failFree_close _)
            obtain ⟨r4, mids4, heq4, ho4, hc4, hff4, herr4⟩ :=
              cdcGrantPhase_shape w st.database (interp st.schema) (interp v.uname?)
                ((([] ++ ([Event.connect .mainConn] ++ mids1 ++ [Event.close .mainConn])) ++
                  ([Event.connect .serviceConn] ++ mids2 ++ [Event.close .serviceConn])) ++
                  ([Event.connect .adminConn] ++ mids3 ++ [Event.close .adminConn]))
            cases r4 with
            | error e4 =>
              obtain ⟨he4, mids0, s0, hm0, hff0⟩ := herr4 e4 rfl
              refine ⟨⟨4, ?_⟩, ?_⟩
              · simp only [runPhases, heq1, heq2, hcdc, ht, if_true, heq3, heq4]
                simpa [List.append_assoc] using
                  BlocksOf.consAppend ho1 hc1 (BlocksOf.consAppend ho2 hc2
                    (BlocksOf.consAppend ho3 hc3 (BlocksOf.consAppend ho4 hc4 BlocksOf.nil)))
              · intro e tr htr
                simp only [runPhases, heq1, heq2, hcdc, ht, if_true, heq3, heq4] at htr
                obtain ⟨hee, htr'⟩ := Prod.mk.injEq .. ▸ htr
                simp at hee htr'
                refine ⟨by rw [← hee]; exact he4,
                  ([Event.connect .mainConn] ++ mids1 ++ [Event.close .mainConn]) ++
                    ([Event.connect .serviceConn] ++ mids2 ++ [Event.close .serviceConn]) ++
                    ([Event.connect .adminConn] ++ mids3 ++ [Event.close .adminConn]) ++
                    ([Event.connect .cdcDbConn] ++ mids0 ++ [Event.logLine .cdcDbConn s0]),
                  .cdcDbConn, s0, ?_, ?_⟩
                · rw [← htr', hm0]
                  simp [List.append_assoc]
                · exact failFree_append (failFree_append (failFree_append hffB1 hffB2) hffB3)
                    (failFree_append (failFree_append (failFree_connect _) hff0)
                      (failFree_log _ _))
            | ok u4 =>
              cases u4
              refine ⟨⟨4, ?_⟩, ?_⟩
              · simp only [runPhases, heq1, heq2, hcdc, ht, if_true, heq3, heq4]
                simpa [List.append_assoc] using
                  BlocksOf.consAppend ho1 hc1 (BlocksOf.consAppend ho2 hc2
                    (BlocksOf.consAppend ho3 hc3 (BlocksOf.consAppend ho4 hc4 BlocksOf.nil)))
              · intro e tr htr
                simp only [runPhases, heq1, heq2, hcdc, ht, if_true, heq3, heq4] at htr
                simp at htr

theorem fetchParse_err {w : World} {sid : String} {e : JSErr}
    (h : fetchParse w sid = .error e) : e = .parseError := by
  unfold fetchParse at h
  cases hf : w.fetch sid with
  | none => rw [hf] at h; simp at h; exact h.symm
  | some s =>
    rw [hf] at h
    dsimp only at h
    cases hp : w.parse s with
    | error u => rw [hp] at h; simp at h; exact h.symm
    | ok v => rw [hp] at h; simp at h

theorem memberUsername_ok {v : JSValue} {o : Option String}
    (h : v.memberUsername = .ok o) : o = v.uname? := by
  cases v <;> first
    | exact Except.noConfusion h
    | exact (Except.ok.inj h).symm

theorem memberPassword_ok {v : JSValue} {o : Option String}
    (h : v.memberPassword = .ok o) : o = v.pword? := by
  cases v <;> first
    | exact Except.noConfusion h
    | exact (Except.ok.inj h).symm

theorem memberUsername_err {v : JSValue} {e : JSErr}
    (h : v.memberUsername = .error e) : e = .typeError := by
  cases v <;> first
    | exact (Except.error.inj h).symm
    | exact Except.noConfusion h

theorem memberPassword_err {v : JSValue} {e : JSErr}
    (h : v.memberPassword = .error e) : e = .typeError := by
  cases v <;> first
    | exact (Except.error.inj h).symm
    | exact Except.noConfusion h

theorem cdcFetch_err {env : Env} {w : World} {e : JSErr}
    (h : cdcFetch env w = .error e) : e = .parseError := by
  unfold cdcFetch at h
  cases hc : env.CDC_USER_SECRET with
  | none => rw [hc] at h; simp at h
  | some cid =>
    rw [hc] at h
    by_cases hcid : cid = ""
    · simp [hcid] at h
    · simp only [hcid, if_false] at h
      cases hf : w.fetch cid with
      | none => rw [hf] at h; simp at h
      | some raw =>
        rw [hf] at h
        by_cases hraw : raw = ""
        · simp [hraw] at h
        · simp only [hraw, if_false] at h
          cases hp : w.parse raw with
          | error u => rw [hp] at h; simp at h; exact h.symm
          | ok v => rw [hp] at h; simp at h

theorem cdcFetch_ok_gate {env : Env} {w : World} {o : Option JSValue}
    (h : cdcFetch env w = .ok o) : cdcTruthy o = cdcGate env w := by
  unfold cdcFetch at h
  unfold cdcGate
  cases hc : env.CDC_USER_SECRET with
  | none => rw [hc] at h; simp at h; simp [← h, cdcTruthy]
  | some cid =>
    rw [hc] at h
    by_cases hcid : cid = ""
    · simp [hcid] at h ⊢; simp [← h, cdcTruthy]
    · simp only [hcid, if_false] at h ⊢
      cases hf : w.fetch cid with
      | none => rw [hf] at h; simp at h; simp [← h, cdcTruthy]
      | some raw =>
        rw [hf] at h
        by_cases hraw : raw = ""
        · simp [hraw] at h ⊢; simp [← h, cdcTruthy]
        · simp only [hraw, if_false] at h ⊢
          cases hp : w.parse raw with
          | error u => rw [hp] at h; simp at h
          | ok v => rw [hp] at h; simp at h; simp [← h, cdcTruthy]

theorem setup_err_kind {env : Env} {w : World} {e : JSErr}
    (h : setup env w = .error e) : e = .parseError ∨ e = .typeError := by
  simp only [setup] at h
  cases hm : fetchParse w env.MASTER_USER_SECRET with
  | error e0 =>
    rw [hm] at h; simp at h
    exact Or.inl (h ▸ fetchParse_err hm)
  | ok mv =>
    rw [hm] at h; dsimp only at h
    cases hs : fetchParse w env.APP_USER_SECRET with
    | error e0 =>
      rw [hs] at h; simp at h
      exact Or.inl (h ▸ fetchParse_err hs)
    | ok sv =>
      rw [hs] at h; dsimp only at h
      cases hc : cdcFetch env w with
      | error e0 =>
        rw [hc] at h; simp at h
        exact Or.inl (h ▸ cdcFetch_err hc)
      | ok co =>
        rw [hc] at h; dsimp only at h
        cases hu : sv.memberUsername with
        | error e0 =>
          rw [hu] at h; simp at h
          exact Or.inr (h ▸ memberUsername_err hu)
        | ok un? =>
          rw [hu] at h; dsimp only at h
          cases hp : sv.memberPassword with
          | error e0 =>
            rw [hp] at h; simp at h
            exact Or.inr (h ▸ memberPassword_err hp)
          | ok pw? =>
            rw [hp] at h; dsimp only at h
            cases hd : env.APP_DATABASE_NAME with
            | some d =>
              rw [hd] at h; dsimp only at h
              cases hmu : mv.memberUsername with
              | error e0 =>
                rw [hmu] at h; simp at h
                exact Or.inr (h ▸ memberUsername_err hmu)
              | ok _ =>
                rw [hmu] at h; dsimp only at h
                cases hmp : mv.memberPassword with
                | error e0 =>
                  rw [hmp] at h; simp at h
                  exact Or.inr (h ▸ memberPassword_err hmp)
                | ok _ => rw [hmp] at h; simp at h
            | none =>
              rw [hd] at h; dsimp only at h
              cases hun : un? with
              | none =>
                rw [hun] at h; simp at h
                exact Or.inr h.symm
              | some un =>
                rw [hun] at h; dsimp only at h
                cases hmu : mv.memberUsername with
                | error e0 =>
                  rw [hmu] at h; simp at h
                  exact Or.inr (h ▸ memberUsername_err hmu)
                | ok _ =>
                  rw [hmu] at h; dsimp only at h
                  cases hmp : mv.memberPassword with
                  | error e0 =>
                    rw [hmp] at h; simp at h
                    exact Or.inr (h ▸ memberPassword_err hmp)
                  | ok _ => rw [hmp] at h; simp at h

theorem setup_inv {env : Env} {w : World} {st : Setup} (h : setup env w = .ok st) :
    ∃ sv, fetchParse w env.APP_USER_SECRET = .ok sv ∧
      st.username = sv.uname? ∧ st.password = sv.pword? ∧
      cdcFetch env w = .ok st.cdcOpt ∧
      (∀ d, env.APP_DATABASE_NAME = some d → st.database = d) ∧
      (env.APP_DATABASE_NAME = none →
        ∃ un, st.username = some un ∧ st.database = replaceFirst un "_user") ∧
      (∀ s, env.APP_SCHEMA_NAME = some s → st.schema = some s) ∧
      (env.APP_SCHEMA_NAME = none → st.schema = st.username) := by
  simp only [setup] at h
  cases hm : fetchParse w env.MASTER_USER_SECRET with
  | error e0 => rw [hm] at h; simp at h
  | ok mv =>
    rw [hm] at h; dsimp only at h
    cases hs : fetchParse w env.APP_USER_SECRET with
    | error e0 => rw [hs] at h; simp at h
    | ok sv =>
      rw [hs] at h; dsimp only at h
      cases hc : cdcFetch env w with
      | error e0 => rw [hc] at h; simp at h
      | ok co =>
        rw [hc] at h; dsimp only at h
        cases hu : sv.memberUsername with
        | error e0 => rw [hu] at h; simp at h
        | ok un? =>
          rw [hu] at h; dsimp only at h
          cases hp : sv.memberPassword with
          | error e0 => rw [hp] at h; simp at h
          | ok pw? =>
            rw [hp] at h; dsimp only at h
            have hun : un? = sv.uname? := memberUsername_ok hu
            have hpw : pw? = sv.pword? := memberPassword_ok hp
            cases hd : env.APP_DATABASE_NAME with
            | some d =>
              rw [hd] at h; dsimp only at h
              cases hmu : mv.memberUsername with
              | error e0 => rw [hmu] at h; simp at h
              | ok _ =>
                rw [hmu] at h; dsimp only at h
                cases hmp : mv.memberPassword with
                | error e0 => rw [hmp] at h; simp at h
                | ok _ =>
                  rw [hmp] at h; dsimp only at h
                  simp at h
                  subst h
                  refine ⟨sv, rfl, hun, hpw, rfl, ?_, ?_, ?_, ?_⟩
                  · intro d' hd'
                    cases hd'
                    rfl
                  · intro hcontra; exact Option.noConfusion hcontra
                  · intro s hset
                    show (match env.APP_SCHEMA_NAME with
                      | some s' => some s'
                      | none => un?) = some s
                    rw [hset]
                  · intro hset
                    show (match env.APP_SCHEMA_NAME with
                      | some s' => some s'
                      | none => un?) = un?
                    rw [hset]
            | none =>
              rw [hd] at h; dsimp only at h
              cases hun2 : un? with
              | none => rw [hun2] at h; simp at h
              | some un =>
                rw [hun2] at h; dsimp only at h
                cases hmu : mv.memberUsername with
                | error e0 => rw [hmu] at h; simp at h
                | ok _ =>
                  rw [hmu] at h; dsimp only at h
                  cases hmp : mv.memberPassword with
                  | error e0 => rw [hmp] at h; simp at h
                  | ok _ =>
                    rw [hmp] at h; dsimp only at h
                    simp at h
                    subst h
                    have hun' : (some un : Option String) = sv.uname? := by
                      rw [← hun2]; exact hun
                    refine ⟨sv, rfl, hun', hpw, rfl, ?_, ?_, ?_, ?_⟩
                    · intro d' hd'
                      exact Option.noConfusion hd'
                    · intro _
                      exact ⟨un, rfl, rfl⟩
                    · intro s hset
                      show (match env.APP_SCHEMA_NAME with
                        | some s' => some s'
                        | none => some un) = some s
                      rw [hset]
                    · intro hset
                      show (match env.APP_SCHEMA_NAME with
                        | some s' => some s'
                        | none => some un) = some un
                      rw [hset]

theorem handler_blocks (env : Env) (w : World) :
    ∃ k, BlocksOf (connOrder.take k) (runEvents env w) := by
  unfold runEvents handler
  cases hs : setup env w with
  | error e => exact ⟨0, BlocksOf.nil⟩
  | ok st => exact (runPhases_struct w st).1

theorem handler_err_stmt {env : Env} {w : World}
    (h : runRes env w = .error .stmtError) :
    ∃ l c s, runEvents env w = l ++ [Event.exec c s none, Event.close c] ∧ failFree l := by
  unfold runRes handler at h
  unfold runEvents handler
  cases hs : setup env w with
  | error e =>
    rw [hs] at h
    simp at h
    rcases setup_err_kind hs with h' | h' <;> rw [h'] at h <;> cases h
  | ok st =>
    rw [hs] at h
    dsimp only at h
    rcases hr : runPhases w st with ⟨r, tr⟩
    rw [hr] at h
    cases r with
    | ok m => simp at h
    | error e =>
      simp at h
      subst h
      have hres := (runPhases_struct w st).2 .stmtError tr hr
      show ∃ l c s, (runPhases w st).2 = l ++ [Event.exec c s none, Event.close c] ∧ failFree l
      rw [hr]
      exact hres.2

theorem execStmts_close (c : ConnId) : execStmts [Event.close c] = [] := rfl

theorem execStmts_mainOkEvents (w : World) (db u pw : String) (h0 : List Stmt) :
    execStmts (mainOkEvents w db u pw h0) =
      ctcOkStmts w (.selectDbExists db) (.createDatabase db) h0 ++
        ctcOkStmts w (.selectRoleExists u) (.createUser u pw)
          (h0 ++ ctcOkStmts w (.selectDbExists db) (.createDatabase db) h0) := by
  rw [mainOkEvents, execStmts_cons_connect, execStmts_append, execStmts_append,
    ctcOkEvents_stmts, ctcOkEvents_stmts, execStmts_close]
  simp

theorem execStmts_svcOkEvents (w : World) (db sch u : String) (h0 : List Stmt) :
    execStmts (svcOkEvents w db sch u h0) = serviceStmts db sch u := by
  rw [svcOkEvents, execStmts_cons_connect, execStmts_append, okPairs_stmts,
    execStmts_close]
  simp

theorem execStmts_cdcAdminOkEvents (w : World) (cu cp : String) (h0 : List Stmt) :
    execStmts (cdcAdminOkEvents w cu cp h0) =
      ctcOkStmts w (.selectRoleExists cu) (.createUser cu cp) h0 := by
  rw [cdcAdminOkEvents, execStmts_cons_connect, execStmts_append, ctcOkEvents_stmts,
    execStmts_close]
  simp

theorem execStmts_cdcGrantOkEvents (w : World) (db sch cu : String) (h0 : List Stmt) :
    execStmts (cdcGrantOkEvents w db sch cu h0) = cdcStmts db sch cu := by
  rw [cdcGrantOkEvents, execStmts_cons_connect, execStmts_append, okPairs_stmts,
    execStmts_close]
  simp

theorem mem_mainOkEvents_conn {w : World} {db u pw : String} {h0 : List Stmt} {e : Event}
    (he : e ∈ mainOkEvents w db u pw h0) : eventConn e = .mainConn := by
  rw [mainOkEvents] at he
  rcases List.mem_cons.mp he with rfl | he
  · rfl
  rcases List.mem_append.mp he with he | he
  · rcases List.mem_append.mp he with he | he
    · rcases onlyConn_ctcOkEvents w .mainConn _ _ _ e he with ⟨s, rfl⟩ | ⟨s, a, rfl⟩ <;> rfl
    · rcases onlyConn_ctcOkEvents w .mainConn _ _ _ e he with ⟨s, rfl⟩ | ⟨s, a, rfl⟩ <;> rfl
  · rw [List.mem_singleton] at he
    subst he
    rfl

theorem mem_svcOkEvents_conn {w : World} {db sch u : String} {h0 : List Stmt} {e : Event}
    (he : e ∈ svcOkEvents w db sch u h0) : eventConn e = .serviceConn := by
  rw [svcOkEvents] at he
  rcases List.mem_cons.mp he with rfl | he
  · rfl
  rcases List.mem_append.mp he with he | he
  · rcases onlyConn_okPairs w .serviceConn _ _ e he with ⟨s, rfl⟩ | ⟨s, a, rfl⟩ <;> rfl
  · rw [List.mem_singleton] at he
    subst he
    rfl

theorem mem_cdcAdminOkEvents_conn {w : World} {cu cp : String} {h0 : List Stmt} {e : Event}
    (he : e ∈ cdcAdminOkEvents w cu cp h0) : eventConn e = .adminConn := by
  rw [cdcAdminOkEvents] at he
  rcases List.mem_cons.mp he with rfl | he
  · rfl
  rcases List.mem_append.mp he with he | he
  · rcases onlyConn_ctcOkEvents w .adminConn _ _ _ e he with ⟨s, rfl⟩ | ⟨s, a, rfl⟩ <;> rfl
  · rw [List.mem_singleton] at he
    subst he
    rfl

theorem mem_cdcGrantOkEvents_conn {w : World} {db sch cu : String} {h0 : List Stmt} {e : Event}
    (he : e ∈ cdcGrantOkEvents w db sch cu h0) : eventConn e = .cdcDbConn := by
  rw [cdcGrantOkEvents] at he
  rcases List.mem_cons.mp he with rfl | he
  · rfl
  rcases List.mem_append.mp he with he | he
  · rcases onlyConn_okPairs w .cdcDbConn _ _ e he with ⟨s, rfl⟩ | ⟨s, a, rfl⟩ <;> rfl
  · rw [List.mem_singleton] at he
    subst he
    rfl

theorem ctcOkStmts_sub {w : World} {chk mk : Stmt} {h0 : List Stmt} {s : Stmt}
    (hs : s ∈ ctcOkStmts w chk mk h0) : s = chk ∨ s = mk := by
  rw [ctcOkStmts] at hs
  rcases List.mem_cons.mp hs with rfl | hs'
  · exact Or.inl rfl
  · cases ha : w.answer h0 chk <;> rw [ha] at hs' <;> simp at hs'
    exact Or.inr hs'

theorem chunks_logsOk {l : List Event} (hc : Chunks l) :
    ∀ rest, logsOk (l ++ rest) = logsOk rest := by
  induction hc with
  | nil => intro rest; rfl
  | pair c s a restl _ ih =>
    intro rest
    show logsOk (Event.logLine c s :: Event.exec c s a :: (restl ++ rest)) = logsOk rest
    rw [logsOk]
    simp [ih rest]

theorem logsOk_cons_connect (c : ConnId) (l : List Event) :
    logsOk (Event.connect c :: l) = logsOk l := rfl

theorem logsOk_cons_close (c : ConnId) (l : List Event) :
    logsOk (Event.close c :: l) = logsOk l := rfl

theorem blocksOf_logsOk {cs : List ConnId} {tr : List Event} (hb : BlocksOf cs tr) :
    logsOk tr = true := by
  induction hb with
  | nil => rfl
  | cons c cs' mids rest ho hch hrest ih =>
    show logsOk (Event.connect c :: (mids ++ Event.close c :: rest)) = true
    rw [logsOk_cons_connect, chunks_logsOk hch, logsOk_cons_close, ih]

theorem countEv_pos {e : Event} {tr : List Event} (he : e ∈ tr) : 0 < countEv e tr := by
  unfold countEv
  rw [List.length_pos]
  intro hnil
  rw [List.filter_eq_nil] at hnil
  exact hnil e he (by simp)

theorem blocksOf_close_mem {cs : List ConnId} {tr : List Event} (hb : BlocksOf cs tr)
    (hnd : cs.Nodup) {c : ConnId} (hmem : Event.close c ∈ tr) : c ∈ cs := by
  by_contra hnot
  have := (blocksOf_counts hb hnd c).2
  rw [if_neg hnot] at this
  exact absurd (countEv_pos hmem) (by rw [this]; exact lt_irrefl 0)

theorem connOrder_take_nodup (k : Nat) : (connOrder.take k).Nodup :=
  (List.take_sublist k connOrder).nodup (by decide)

theorem execStmts_okTrace (w : World) (st : Setup) :
    execStmts (okTrace w st) =
      ctcOkStmts w (.selectDbExists st.database) (.createDatabase st.database) [] ++
        ctcOkStmts w (.selectRoleExists (interp st.username))
          (.createUser (interp st.username) (interp st.password))
          ([] ++ ctcOkStmts w (.selectDbExists st.database) (.createDatabase st.database) []) ++
        serviceStmts st.database (interp st.schema) (interp st.username) ++
        (match st.cdcOpt with
          | some v =>
            if v.truthy then
              ctcOkStmts w (.selectRoleExists (interp v.uname?))
                  (.createUser (interp v.uname?) (interp v.pword?))
                  (execStmts (mainOkEvents w st.database (interp st.username)
                      (interp st.password) []) ++
                    serviceStmts st.database (interp st.schema) (interp st.username)) ++
                cdcStmts st.database (interp st.schema) (interp v.uname?)
            else []
          | none => []) := by
  rcases hc : st.cdcOpt with _ | v
  · simp only [okTrace, hc]
    rw [execStmts_append, execStmts_mainOkEvents, execStmts_svcOkEvents]
    simp
  · cases ht : v.truthy with
    | false =>
      simp only [okTrace, hc, ht, Bool.false_eq_true, if_false]
      rw [execStmts_append, execStmts_mainOkEvents, execStmts_svcOkEvents]
      simp
    | true =>
      simp only [okTrace, hc, ht, if_true]
      simp [execStmts_append, execStmts_mainOkEvents, execStmts_svcOkEvents,
        execStmts_cdcAdminOkEvents, execStmts_cdcGrantOkEvents, List.append_assoc]

theorem okMsg_skip {st : Setup} (h : cdcTruthy st.cdcOpt = false) :
    okMsg st = ⟨skipMessage⟩ := by
  rcases hc : st.cdcOpt with _ | v
  · simp [okMsg, hc]
  · rw [hc] at h
    simp [cdcTruthy] at h
    simp [okMsg, hc, h]

theorem okMsg_ready {st : Setup} {v : JSValue} (hc : st.cdcOpt = some v)
    (ht : v.truthy = true) :
    okMsg st = ⟨readyMsg st.database (namesOf st.username v.uname?)⟩ := by
  simp [okMsg, hc, ht]

theorem okTrace_factor (w : World) (st : Setup) :
    ∃ R, okTrace w st =
      mainOkEvents w st.database (interp st.username) (interp st.password) [] ++ R := by
  rcases hc : st.cdcOpt with _ | v
  · simp only [okTrace, hc]
    exact ⟨_, rfl⟩
  · cases ht : v.truthy with
    | false =>
      simp only [okTrace, hc, ht, Bool.false_eq_true, if_false]
      exact ⟨_, rfl⟩
    | true =>
      simp only [okTrace, hc, ht, if_true]
      exact ⟨_, by rw [List.append_assoc, List.append_assoc]⟩

theorem connect_admin_okTrace (w : World) (st : Setup) :
    (Event.connect .adminConn ∈ okTrace w st) ↔ cdcTruthy st.cdcOpt = true := by
  rcases hc : st.cdcOpt with _ | v
  · simp only [okTrace, hc, cdcTruthy]
    constructor
    · intro hmem
      rcases List.mem_append.mp hmem with hm | hm
      · have := mem_mainOkEvents_conn hm
        simp [eventConn] at this
      · have := mem_svcOkEvents_conn hm
        simp [eventConn] at this
    · intro hfalse; simp at hfalse
  · cases ht : v.truthy with
    | false =>
      simp only [okTrace, hc, ht, Bool.false_eq_true, if_false, cdcTruthy]
      constructor
      · intro hmem
        rcases List.mem_append.mp hmem with hm | hm
        · have := mem_mainOkEvents_conn hm
          simp [eventConn] at this
        · have := mem_svcOkEvents_conn hm
          simp [eventConn] at this
      · intro hfalse; simp at hfalse
    | true =>
      simp only [okTrace, hc, ht, if_true, cdcTruthy]
      constructor
      · intro _; trivial
      · intro _
        refine List.mem_append.mpr (Or.inl (List.mem_append.mpr (Or.inr ?_)))
        rw [cdcAdminOkEvents]
        exact List.mem_cons_self _ _

theorem mem_exec_pairE2 {c' c : ConnId} {s' s : Stmt} {a' : Option Bool} {a : Bool}
    (h : Event.exec c' s' a' ∈ pairE2 c s a) :
    c' = c ∧ s' = s ∧ a' = some a := by
  simp [pairE2] at h
  exact ⟨h.1, h.2.1, h.2.2⟩

theorem mem_exec_ctcOkEvents {w : World} {c' c : ConnId} {s' : Stmt} {a' : Option Bool}
    {chk mk : Stmt} {h0 : List Stmt}
    (h : Event.exec c' s' a' ∈ ctcOkEvents w c chk mk h0) :
    c' = c ∧ (s' = chk ∨ (w.answer h0 chk = false ∧ s' = mk)) := by
  rcases ctcOkEvents_cases w c chk mk h0 with ⟨he, ha⟩ | ⟨he, ha⟩ <;> rw [he] at h
  · obtain ⟨h1, h2, _⟩ := mem_exec_pairE2 h
    exact ⟨h1, Or.inl h2⟩
  · rcases List.mem_append.mp h with hm | hm
    · obtain ⟨h1, h2, _⟩ := mem_exec_pairE2 hm
      exact ⟨h1, Or.inl h2⟩
    · obtain ⟨h1, h2, _⟩ := mem_exec_pairE2 hm
      exact ⟨h1, Or.inr ⟨ha, h2⟩⟩

theorem mem_exec_okPairs {w : World} {c' c : ConnId} {s' : Stmt} {a' : Option Bool} :
    ∀ {ss h0}, Event.exec c' s' a' ∈ okPairs w c h0 ss → c' = c ∧ s' ∈ ss := by
  intro ss
  induction ss with
  | nil => intro h0 h; cases h
  | cons s rest ih =>
    intro h0 h
    rw [okPairs] at h
    rcases List.mem_append.mp h with hm | hm
    · obtain ⟨h1, h2, _⟩ := mem_exec_pairE2 hm
      exact ⟨h1, by rw [h2]; exact List.mem_cons_self _ _⟩
    · obtain ⟨h1, h2⟩ := ih hm
      exact ⟨h1, List.mem_cons_of_mem _ h2⟩

theorem exec_ctc_mem_false {w : World} {c : ConnId} {chk mk : Stmt} {h0 : List Stmt}
    (ha : w.answer h0 chk = false) :
    Event.exec c mk (some (w.answer (h0 ++ [chk]) mk)) ∈ ctcOkEvents w c chk mk h0 := by
  rw [ctcOkEvents, ha]
  simp only [Bool.false_eq_true, if_false]
  refine List.mem_append.mpr (Or.inr ?_)
  simp [pairE2]

theorem fetchParse_fails {w : World} {sid : String}
    (h : w.fetch sid = none ∨ ∃ raw, w.fetch sid = some raw ∧ w.parse raw = .error ()) :
    fetchParse w sid = .error .parseError := by
  unfold fetchParse
  rcases h with h | ⟨raw, hf, hp⟩
  · rw [h]
  · rw [hf]
    dsimp only
    rw [hp]

/-- C8: in every run, at most one connection is open at any point, statements
are only issued on the currently open connection, every opened connection is
closed again (also on failure), and connections open in the fixed order
`mainConn`, `serviceConn`, `adminConn`, `cdcDbConn` (a prefix of it when the
run skips CDC or aborts), so each connection is fully closed before the next
one connects. -/
theorem c8_single_connection (env : Env) (w : World) :
    scanOpen none (runEvents env w) = some none ∧
    ∃ k, connectsOf (runEvents env w) = connOrder.take k := by
  obtain ⟨k, hb⟩ := handler_blocks env w
  exact ⟨blocksOf_scanOpen hb, k, blocksOf_connectsOf hb⟩

/-- C4: if a statement throws (the run rejects with a statement error), the
trace ends with that failed submission immediately followed by the `end` of
the connection it was issued on; that connection was connected exactly once
and closed exactly once, and no earlier statement failed (so the failing
statement is not retried and nothing runs after it). -/
theorem c4_close_on_failure (env : Env) (w : World)
    (h : runRes env w = .error .stmtError) :
    ∃ l c s, runEvents env w = l ++ [Event.exec c s none, Event.close c] ∧
      failFree l ∧
      countEv (Event.close c) (runEvents env w) = 1 ∧
      countEv (Event.connect c) (runEvents env w) = 1 := by
  obtain ⟨l, c, s, htr, hff⟩ := handler_err_stmt h
  obtain ⟨k, hb⟩ := handler_blocks env w
  have hnd := connOrder_take_nodup k
  have hmem : Event.close c ∈ runEvents env w := by rw [htr]; simp
  have hcs : c ∈ connOrder.take k := blocksOf_close_mem hb hnd hmem
  obtain ⟨hconn, hclose⟩ := blocksOf_counts hb hnd c
  exact ⟨l, c, s, htr, hff, by rw [hclose, if_pos hcs], by rw [hconn, if_pos hcs]⟩

/-- C4 witness: with the very first statement rejected, the run fails with a
statement error and the theorem's conclusion holds at this concrete input. -/
theorem c4_close_on_failure_witness :
    runRes envFull wFail0 = .error .stmtError ∧
    ∃ l c s, runEvents envFull wFail0 = l ++ [Event.exec c s none, Event.close c] ∧
      failFree l ∧
      countEv (Event.close c) (runEvents envFull wFail0) = 1 ∧
      countEv (Event.connect c) (runEvents envFull wFail0) = 1 :=
  ⟨rfl, c4_close_on_failure envFull wFail0 rfl⟩

/-- C5: when the master or the service secret is absent or its payload is
malformed, the handler rejects with the parse error and its trace is empty —
the run aborts before any connection is opened. -/
theorem c5_secret_errors_abort_before_connect (env : Env) (w : World)
    (h : w.fetch env.MASTER_USER_SECRET = none ∨
      (∃ raw, w.fetch env.MASTER_USER_SECRET = some raw ∧ w.parse raw = .error ()) ∨
      w.fetch env.APP_USER_SECRET = none ∨
      (∃ raw, w.fetch env.APP_USER_SECRET = some raw ∧ w.parse raw = .error ())) :
    handler env w = (.error .parseError, []) := by
  have hsetup : setup env w = .error .parseError := by
    rcases h with h | h | h | h
    · simp only [setup]
      rw [fetchParse_fails (Or.inl h)]
    · simp only [setup]
      rw [fetchParse_fails (Or.inr h)]
    · simp only [setup]
      cases hm : fetchParse w env.MASTER_USER_SECRET with
      | error e =>
        dsimp only
        rw [fetchParse_err hm]
      | ok mv =>
        dsimp only
        rw [fetchParse_fails (Or.inl h)]
    · simp only [setup]
      cases hm : fetchParse w env.MASTER_USER_SECRET with
      | error e =>
        dsimp only
        rw [fetchParse_err hm]
      | ok mv =>
        dsimp only
        rw [fetchParse_fails (Or.inr h)]
  unfold handler
  rw [hsetup]

/-- C5 witness: with the master secret absent, the run fails with a parse
error and an empty trace. -/
theorem c5_secret_errors_abort_before_connect_witness :
    wNoMaster.fetch envFull.MASTER_USER_SECRET = none ∧
    handler envFull wNoMaster = (.error .parseError, []) :=
  ⟨rfl, c5_secret_errors_abort_before_connect envFull wNoMaster (Or.inl rfl)⟩

/-- C3 (code evaluation): the service-role statement list of
`bootstrap_after_pr.ts` starts with the `pg_trgm` extension statement, not
with schema creation; `CREATE SCHEMA IF NOT EXISTS` appears only at index 4,
and no statement among the first four is a schema creation. The concrete
happy-path run exhibits the same order on the wire. The specification (and
the sibling variants `bootstrap.ts`, `PT_bootstrap_v2.ts`) put
`CREATE SCHEMA IF NOT EXISTS` first. -/
theorem c3_service_order_evaluation :
    (∀ db sch u : String,
      (serviceStmts db sch u).head? = some (.createExtension "pg_trgm" sch) ∧
      (serviceStmts db sch u)[4]? = some (.createSchema sch) ∧
      ∀ s ∈ (serviceStmts db sch u).take 4, ∀ sch', s ≠ Stmt.createSchema sch') ∧
    List.take 5 (List.drop 4 (execStmts (runEvents envFull wHappy))) =
      [.createExtension "pg_trgm" "app_schema", .createExtension "intarray" "app_schema",
        .grantConnect "app_database" "myapp_user", .grantCreate "app_database" "myapp_user",
        .createSchema "app_schema"] := by
  constructor
  · intro db sch u
    refine ⟨rfl, rfl, ?_⟩
    intro s hs sch'
    simp [serviceStmts] at hs
    rcases hs with rfl | rfl | rfl | rfl <;> simp
  · rfl

theorem skip_execStmts {w : World} {st : Setup} (hT : cdcTruthy st.cdcOpt = false) :
    execStmts (okTrace w st) =
      ctcOkStmts w (.selectDbExists st.database) (.createDatabase st.database) [] ++
        ctcOkStmts w (.selectRoleExists (interp st.username))
          (.createUser (interp st.username) (interp st.password))
          ([] ++ ctcOkStmts w (.selectDbExists st.database) (.createDatabase st.database) []) ++
        serviceStmts st.database (interp st.schema) (interp st.username) := by
  rw [execStmts_okTrace]
  rcases hc : st.cdcOpt with _ | v
  · simp
  · rw [hc] at hT
    simp [cdcTruthy] at hT
    simp [hT]

/-- C1 counterexample: with `CDC_USER_SECRET` configured and the CDC secret
resolving to the payload `"\x7b\x7d"` — parseable but with neither `username` nor
`password` field, so the specification's gate is `false` — the CDC phase
still executes: the fresh admin connection opens, the `rds_replication`
grant (with role `undefined`) is issued, and the run succeeds with the CDC
success message. -/
theorem c1_counterexample :
    specCdcGate envFull wEmptyObj = false ∧
    Event.connect .adminConn ∈ runEvents envFull wEmptyObj ∧
    Stmt.grantReplication "undefined" ∈ execStmts (runEvents envFull wEmptyObj) ∧
    runRes envFull wEmptyObj =
      .ok ⟨"Database 'app_database' for username(s) 'myapp_user' is ready for use!"⟩ := by
  refine ⟨by decide, by decide, by decide, rfl⟩

/-- C1 (amended): in every successful run the CDC phase executes if and only
if `CDC_USER_SECRET` is configured (truthy) AND the secret's `SecretString`
is present and non-empty AND the payload parses to a truthy value — no
`username`/`password` field check is involved (`cdcGate`). When that gate is
false the run performs only service-role provisioning: no `rds_replication`
grant and no `CREATE PUBLICATION` statement is issued, and the message is
the fixed skip text. -/
theorem c1_amended_gate (env : Env) (w : World) (m : HandlerResult)
    (h : runRes env w = .ok m) :
    ((Event.connect .adminConn ∈ runEvents env w) ↔ cdcGate env w = true) ∧
    (cdcGate env w = false →
      (∀ r, Stmt.grantReplication r ∉ execStmts (runEvents env w)) ∧
      Stmt.createPublication ∉ execStmts (runEvents env w) ∧
      m.message = skipMessage) := by
  obtain ⟨st, hst, htr, hmsg⟩ := handler_ok h
  obtain ⟨sv, hsv, hu, hp, hcdc, _, _, _, _⟩ := setup_inv hst
  have hgate : cdcTruthy st.cdcOpt = cdcGate env w := cdcFetch_ok_gate hcdc
  constructor
  · rw [htr, ← hgate]
    exact connect_admin_okTrace w st
  · intro hfalse
    have hT : cdcTruthy st.cdcOpt = false := by rw [hgate, hfalse]
    refine ⟨?_, ?_, ?_⟩
    · intro r hmem
      rw [htr, skip_execStmts hT] at hmem
      rcases List.mem_append.mp hmem with hm | hm
      · rcases List.mem_append.mp hm with hm' | hm'
        · rcases ctcOkStmts_sub hm' with h' | h' <;> exact Stmt.noConfusion h'
        · rcases ctcOkStmts_sub hm' with h' | h' <;> exact Stmt.noConfusion h'
      · simp [serviceStmts] at hm
    · intro hmem
      rw [htr, skip_execStmts hT] at hmem
      rcases List.mem_append.mp hmem with hm | hm
      · rcases List.mem_append.mp hm with hm' | hm'
        · rcases ctcOkStmts_sub hm' with h' | h' <;> exact Stmt.noConfusion h'
        · rcases ctcOkStmts_sub hm' with h' | h' <;> exact Stmt.noConfusion h'
      · simp [serviceStmts] at hm
    · rw [hmsg, okMsg_skip hT]

/-- C1 witness: the amended theorem applied to the concrete run in which
`CDC_USER_SECRET` is unset (the gate is false and CDC is skipped). -/
theorem c1_amended_gate_witness :
    ((Event.connect .adminConn ∈ runEvents envNoCdc wHappy) ↔
      cdcGate envNoCdc wHappy = true) ∧
    (cdcGate envNoCdc wHappy = false →
      (∀ r, Stmt.grantReplication r ∉ execStmts (runEvents envNoCdc wHappy)) ∧
      Stmt.createPublication ∉ execStmts (runEvents envNoCdc wHappy) ∧
      HandlerResult.message ⟨skipMessage⟩ = skipMessage) :=
  c1_amended_gate envNoCdc wHappy ⟨skipMessage⟩ rfl

/-- C6 counterexample: for service username `"my_user_db"` (no explicit
database name), the first statement of the run checks for database
`"my_db"` — the FIRST occurrence of `_user` was removed — whereas stripping
only a trailing `_user` suffix would leave `"my_user_db"` unchanged. -/
theorem c6_counterexample :
    (execStmts (runEvents envDefaults wC6)).head? = some (.selectDbExists "my_db") ∧
    stripSuffixUser "my_user_db" = "my_user_db" ∧
    ("my_db" : String) ≠ "my_user_db" := by
  refine ⟨rfl, rfl, by decide⟩

/-- C6 (amended): with `APP_DATABASE_NAME` and `APP_SCHEMA_NAME` unset, the
target database name is the service username with the FIRST occurrence of
`_user` removed (`replaceFirst`, the JS `replace('_user', '')`), and the
schema name is the username verbatim; in particular `"myapp_user"` resolves
to database `"myapp"`, and in every successful run the first issued
statement is the existence check for that derived database. -/
theorem c6_amended (env : Env) (w : World) (st : Setup)
    (h1 : env.APP_DATABASE_NAME = none) (h2 : env.APP_SCHEMA_NAME = none)
    (hs : setup env w = .ok st) :
    (∃ u, st.username = some u ∧ st.database = replaceFirst u "_user" ∧
      st.schema = some u) ∧
    replaceFirst "myapp_user" "_user" = "myapp" ∧
    ∀ m, runRes env w = .ok m →
      (execStmts (runEvents env w)).head? = some (.selectDbExists st.database) := by
  obtain ⟨sv, hsv, hu, hp, hcdc, hdbs, hdbn, hschs, hschn⟩ := setup_inv hs
  obtain ⟨un, hun, hdb⟩ := hdbn h1
  refine ⟨⟨un, hun, hdb, ?_⟩, rfl, ?_⟩
  · rw [hschn h2, hun]
  · intro m hm
    obtain ⟨st', hst', htr, _⟩ := handler_ok hm
    rw [hs] at hst'
    injection hst' with he
    subst he
    rw [htr, execStmts_okTrace, ctcOkStmts]
    simp

/-- C6 witness: the amended theorem at the concrete defaults run with
service username `"myapp_user"`. -/
theorem c6_amended_witness :
    (∃ u, (Setup.username ⟨some "myapp_user", some "myapp_password", "myapp",
        some "myapp_user", some (.vObj (some "cdc_user") (some "cdc_password"))⟩) = some u ∧
      (Setup.database ⟨some "myapp_user", some "myapp_password", "myapp",
        some "myapp_user", some (.vObj (some "cdc_user") (some "cdc_password"))⟩) =
        replaceFirst u "_user" ∧
      (Setup.schema ⟨some "myapp_user", some "myapp_password", "myapp",
        some "myapp_user", some (.vObj (some "cdc_user") (some "cdc_password"))⟩) = some u) ∧
    replaceFirst "myapp_user" "_user" = "myapp" ∧
    ∀ m, runRes envDefaults wHappy = .ok m →
      (execStmts (runEvents envDefaults wHappy)).head? =
        some (.selectDbExists (Setup.database ⟨some "myapp_user", some "myapp_password",
          "myapp", some "myapp_user", some (.vObj (some "cdc_user") (some "cdc_password"))⟩)) :=
  c6_amended envDefaults wHappy _ rfl rfl rfl

/-- C7 counterexample: with `CDC_USER_SECRET` set (to `"cdc-id"`) but the
secret's `SecretString` absent, CDC is skipped and the success message
claims `CDC_USER_SECRET not set` — it states a fixed alleged reason that is
not the actual cause of the skip. -/
theorem c7_counterexample :
    envFull.CDC_USER_SECRET = some "cdc-id" ∧
    runRes envFull wCdcNoRaw = .ok ⟨skipMessage⟩ ∧
    skipMessage = "CDC_USER_SECRET not set; skipping CDC user/publication setup." :=
  ⟨rfl, rfl, rfl⟩

/-- C7 (amended): every successful run returns `{message}`: if the CDC gate
was false (whatever the cause), the message is the fixed skip text
`CDC_USER_SECRET not set; skipping CDC user/publication setup.`; if the CDC
phase ran, the message names the database and the truthy usernames among
service and CDC (a missing/empty one is dropped), joined by `" & "`. On
failure the handler rejects with the underlying error unrecovered: the
result is the setup error itself, or the statement rejection, in which case
the trace is a fail-free prefix followed by the one failed statement and
its connection's close. -/
theorem c7_amended (env : Env) (w : World) :
    (∀ st m, setup env w = .ok st → runRes env w = .ok m →
      (cdcTruthy st.cdcOpt = false → m.message = skipMessage) ∧
      ∀ v, st.cdcOpt = some v → v.truthy = true →
        m.message = readyMsg st.database (namesOf st.username v.uname?)) ∧
    (∀ e, runRes env w = .error e →
      setup env w = .error e ∨
      (e = .stmtError ∧ ∃ l c s,
        runEvents env w = l ++ [Event.exec c s none, Event.close c] ∧ failFree l)) := by
  constructor
  · intro st m hs h
    obtain ⟨st', hst', htr, hmsg⟩ := handler_ok h
    rw [hs] at hst'
    injection hst' with he
    subst he
    constructor
    · intro hT
      rw [hmsg, okMsg_skip hT]
    · intro v hv ht
      rw [hmsg, okMsg_ready hv ht]
  · intro e h
    unfold runRes handler at h
    unfold runEvents handler
    cases hs : setup env w with
    | error e0 =>
      rw [hs] at h
      dsimp only at h
      injection h with he
      subst he
      exact Or.inl rfl
    | ok st =>
      rw [hs] at h
      dsimp only at h ⊢
      rcases hr : runPhases w st with ⟨r, tr⟩
      rw [hr] at h
      dsimp only at h ⊢
      cases r with
      | ok m => exact Except.noConfusion h
      | error e1 =>
        injection h with he
        subst he
        exact Or.inr ((runPhases_struct w st).2 e1 tr hr)

/-- C7 witness: the amended theorem at two concrete runs — a skip run whose
CDC secret has no `SecretString` (the success clause yields the fixed skip
text) and a run whose first statement is rejected (the failure clause
yields the statement error with its trace decomposition). -/
theorem c7_amended_witness :
    HandlerResult.message ⟨skipMessage⟩ = skipMessage ∧
    (setup envFull wFail0 = .error JSErr.stmtError ∨
      (JSErr.stmtError = JSErr.stmtError ∧ ∃ l c s,
        runEvents envFull wFail0 = l ++ [Event.exec c s none, Event.close c] ∧ failFree l)) :=
  ⟨((c7_amended envFull wCdcNoRaw).1 _ ⟨skipMessage⟩ rfl rfl).1 rfl,
   (c7_amended envFull wFail0).2 JSErr.stmtError rfl⟩

/-- C10: when the CDC secret payload parses to an object with neither
`username` nor `password` (e.g. `"\x7b\x7d"`), the entire CDC phase still runs
(the object is truthy): the fresh admin connection opens, and every CDC
grant statement interpolates the literal role text `undefined` —
`GRANT CONNECT`, `GRANT SELECT`, the `rds_replication` grant and the
publication creation are all issued; yet the success message lists only the
service username, because falsy usernames are filtered out before joining. -/
theorem c10_cdc_undefined_role (env : Env) (w : World) (st : Setup) (m : HandlerResult)
    (hs : setup env w = .ok st)
    (hcdc : st.cdcOpt = some (JSValue.vObj none none))
    (h : runRes env w = .ok m) :
    Event.connect .adminConn ∈ runEvents env w ∧
    Stmt.grantConnect st.database "undefined" ∈ execStmts (runEvents env w) ∧
    Stmt.grantSelectAll (interp st.schema) "undefined" ∈ execStmts (runEvents env w) ∧
    Stmt.grantReplication "undefined" ∈ execStmts (runEvents env w) ∧
    Stmt.createPublication ∈ execStmts (runEvents env w) ∧
    ∀ u, st.username = some u → u ≠ "" →
      m.message = "Database '" ++ st.database ++ "' for username(s) '" ++ u ++
        "' is ready for use!" := by
  obtain ⟨st', hst', htr, hmsg⟩ := handler_ok h
  rw [hs] at hst'
  injection hst' with he
  subst he
  have htruthy : cdcTruthy st.cdcOpt = true := by rw [hcdc]; rfl
  have hmem : ∀ s ∈ cdcStmts st.database (interp st.schema) "undefined",
      s ∈ execStmts (runEvents env w) := by
    intro s hsmem
    rw [htr, execStmts_okTrace, hcdc]
    simp only [JSValue.truthy, if_true]
    refine List.mem_append.mpr (Or.inr (List.mem_append.mpr (Or.inr hsmem)))
  refine ⟨?_, ?_, ?_, ?_, ?_, ?_⟩
  · rw [htr]
    exact (connect_admin_okTrace w st).mpr htruthy
  · exact hmem _ (by simp [cdcStmts])
  · exact hmem _ (by simp [cdcStmts])
  · exact hmem _ (by simp [cdcStmts])
  · exact hmem _ (by simp [cdcStmts])
  · intro u hu hne
    rw [hmsg, okMsg_ready hcdc rfl]
    show readyMsg st.database (namesOf st.username (JSValue.vObj none none).uname?) = _
    rw [hu]
    have hn : namesOf (some u) (JSValue.vObj none none).uname? = [u] := by
      simp [namesOf, JSValue.uname?, hne]
    rw [hn, readyMsg, joinSep]

/-- C10 witness: the concrete run with CDC payload `"\x7b\x7d"`. -/
theorem c10_cdc_undefined_role_witness :
    Event.connect .adminConn ∈ runEvents envFull wEmptyObj ∧
    Stmt.grantConnect (Setup.database ⟨some "myapp_user", some "myapp_password",
        "app_database", some "app_schema", some (.vObj none none)⟩) "undefined" ∈
      execStmts (runEvents envFull wEmptyObj) ∧
    Stmt.grantSelectAll (interp (Setup.schema ⟨some "myapp_user", some "myapp_password",
        "app_database", some "app_schema", some (.vObj none none)⟩)) "undefined" ∈
      execStmts (runEvents envFull wEmptyObj) ∧
    Stmt.grantReplication "undefined" ∈ execStmts (runEvents envFull wEmptyObj) ∧
    Stmt.createPublication ∈ execStmts (runEvents envFull wEmptyObj) ∧
    ∀ u, (Setup.username ⟨some "myapp_user", some "myapp_password", "app_database",
        some "app_schema", some (.vObj none none)⟩) = some u → u ≠ "" →
      HandlerResult.message
          ⟨"Database 'app_database' for username(s) 'myapp_user' is ready for use!"⟩ =
        "Database '" ++ (Setup.database ⟨some "myapp_user", some "myapp_password",
          "app_database", some "app_schema", some (.vObj none none)⟩) ++
          "' for username(s) '" ++ u ++ "' is ready for use!" :=
  c10_cdc_undefined_role envFull wEmptyObj _ _ rfl rfl rfl

/-- C9: in every successful run, every submitted statement is immediately
preceded by its log line (same connection, same statement text — `logsOk`),
and the trace decomposes as: the `mainConn` connect, the database-existence
check (log + submission), a fragment `t2` containing no CDC-phase event,
then the log line of the service-role-existence check, then the rest; hence
the database-existence check is logged strictly before the role-existence
check, and every CDC-phase statement comes strictly after both. -/
theorem c9_logging_and_ordering (env : Env) (w : World) (st : Setup) (m : HandlerResult)
    (hs : setup env w = .ok st) (h : runRes env w = .ok m) :
    logsOk (runEvents env w) = true ∧
    ∃ t2 t3,
      runEvents env w =
        (Event.connect .mainConn ::
          (pairE2 .mainConn (.selectDbExists st.database)
            (w.answer [] (.selectDbExists st.database)) ++ t2)) ++
        (Event.logLine .mainConn (.selectRoleExists (interp st.username)) :: t3) ∧
      ∀ e ∈ Event.connect .mainConn ::
          (pairE2 .mainConn (.selectDbExists st.database)
            (w.answer [] (.selectDbExists st.database)) ++ t2),
        isCdcEvent e = false := by
  obtain ⟨st', hst', htr, _⟩ := handler_ok h
  rw [hs] at hst'
  injection hst' with he
  subst he
  constructor
  · obtain ⟨k, hb⟩ := handler_blocks env w
    exact blocksOf_logsOk hb
  · obtain ⟨R, hfac⟩ := okTrace_factor w st
    rw [htr, hfac, mainOkEvents, ctcOkEvents, ctcOkEvents]
    refine ⟨if w.answer [] (.selectDbExists st.database) then []
        else pairE2 .mainConn (.createDatabase st.database)
          (w.answer ([] ++ [Stmt.selectDbExists st.database]) (.createDatabase st.database)),
      Event.exec .mainConn (.selectRoleExists (interp st.username))
          (some (w.answer
            ([] ++ ctcOkStmts w (.selectDbExists st.database) (.createDatabase st.database) [])
            (.selectRoleExists (interp st.username)))) ::
        ((if w.answer ([] ++ ctcOkStmts w (.selectDbExists st.database)
              (.createDatabase st.database) [])
            (.selectRoleExists (interp st.username)) then []
          else pairE2 .mainConn
            (.createUser (interp st.username) (interp st.password))
            (w.answer (([] ++ ctcOkStmts w (.selectDbExists st.database)
                (.createDatabase st.database) []) ++ [Stmt.selectRoleExists (interp st.username)])
              (.createUser (interp st.username) (interp st.password)))) ++
          [Event.close .mainConn] ++ R), ?_, ?_⟩
    · simp [pairE2, List.append_assoc]
    · intro e he
      rcases List.mem_cons.mp he with rfl | he
      · rfl
      rcases List.mem_append.mp he with he | he
      · simp [pairE2] at he
        rcases he with rfl | rfl <;> rfl
      · cases ha : w.answer [] (.selectDbExists st.database) with
        | true => rw [ha] at he; simp at he
        | false =>
          rw [ha] at he
          simp [pairE2] at he
          rcases he with rfl | rfl <;> rfl

/-- C9 witness: the theorem at the concrete happy-path run. -/
theorem c9_logging_and_ordering_witness :
    logsOk (runEvents envFull wHappy) = true ∧
    ∃ t2 t3,
      runEvents envFull wHappy =
        (Event.connect .mainConn ::
          (pairE2 .mainConn (.selectDbExists (Setup.database ⟨some "myapp_user",
              some "myapp_password", "app_database", some "app_schema",
              some (.vObj (some "cdc_user") (some "cdc_password"))⟩))
            (wHappy.answer [] (.selectDbExists (Setup.database ⟨some "myapp_user",
              some "myapp_password", "app_database", some "app_schema",
              some (.vObj (some "cdc_user") (some "cdc_password"))⟩))) ++ t2)) ++
        (Event.logLine .mainConn (.selectRoleExists (interp (Setup.username ⟨some "myapp_user",
            some "myapp_password", "app_database", some "app_schema",
            some (.vObj (some "cdc_user") (some "cdc_password"))⟩))) :: t3) ∧
      ∀ e ∈ Event.connect .mainConn ::
          (pairE2 .mainConn (.selectDbExists (Setup.database ⟨some "myapp_user",
              some "myapp_password", "app_database", some "app_schema",
              some (.vObj (some "cdc_user") (some "cdc_password"))⟩))
            (wHappy.answer [] (.selectDbExists (Setup.database ⟨some "myapp_user",
              some "myapp_password", "app_database", some "app_schema",
              some (.vObj (some "cdc_user") (some "cdc_password"))⟩))) ++ t2),
        isCdcEvent e = false :=
  c9_logging_and_ordering envFull wHappy _ ⟨"Database 'app_database' for username(s) 'myapp_user & cdc_user' is ready for use!"⟩ rfl rfl

theorem ctcOkStmts_mem_iff {w : World} {chk mk : Stmt} {h0 : List Stmt} {s : Stmt} :
    s ∈ ctcOkStmts w chk mk h0 ↔
      (s = chk ∨ (w.answer h0 chk = false ∧ s = mk)) := by
  rw [ctcOkStmts]
  cases ha : w.answer h0 chk <;> simp [ha]

theorem mem_okTrace_of_main {w : World} {st : Setup} {e : Event}
    (he : e ∈ mainOkEvents w st.database (interp st.username) (interp st.password) []) :
    e ∈ okTrace w st := by
  obtain ⟨R, hfac⟩ := okTrace_factor w st
  rw [hfac]
  exact List.mem_append.mpr (Or.inl he)

theorem exec_main_mem_okTrace {w : World} {st : Setup} {s' : Stmt} {a' : Option Bool}
    (he : Event.exec .mainConn s' a' ∈ okTrace w st) :
    Event.exec .mainConn s' a' ∈
      mainOkEvents w st.database (interp st.username) (interp st.password) [] := by
  rcases hc : st.cdcOpt with _ | v
  · rw [okTrace, hc] at he
    dsimp only at he
    rcases List.mem_append.mp he with hm | hm
    · exact hm
    · have := mem_svcOkEvents_conn hm
      simp [eventConn] at this
  · cases ht : v.truthy with
    | false =>
      rw [okTrace, hc] at he
      dsimp only at he
      rw [ht] at he
      simp only [Bool.false_eq_true, if_false] at he
      rcases List.mem_append.mp he with hm | hm
      · exact hm
      · have := mem_svcOkEvents_conn hm
        simp [eventConn] at this
    | true =>
      rw [okTrace, hc] at he
      dsimp only at he
      rw [ht] at he
      simp only [if_true] at he
      rcases List.mem_append.mp he with hm | hm
      · rcases List.mem_append.mp hm with hm' | hm'
        · rcases List.mem_append.mp hm' with hm'' | hm''
          · exact hm''
          · have := mem_svcOkEvents_conn hm''
            simp [eventConn] at this
        · have := mem_cdcAdminOkEvents_conn hm'
          simp [eventConn] at this
      · have := mem_cdcGrantOkEvents_conn hm
        simp [eventConn] at this

theorem exec_main_mem_mainOk {w : World} {db u pw : String} {s' : Stmt} {a' : Option Bool}
    (he : Event.exec .mainConn s' a' ∈ mainOkEvents w db u pw []) :
    (s' = .selectDbExists db ∨
      (w.answer [] (.selectDbExists db) = false ∧ s' = .createDatabase db)) ∨
    (s' = .selectRoleExists u ∨
      (w.answer (ctcOkStmts w (.selectDbExists db) (.createDatabase db) [])
          (.selectRoleExists u) = false ∧
        s' = .createUser u pw)) := by
  rw [mainOkEvents] at he
  rcases List.mem_cons.mp he with habs | he
  · exact absurd habs (by simp)
  rcases List.mem_append.mp he with he | he
  · rcases List.mem_append.mp he with he | he
    · exact Or.inl (mem_exec_ctcOkEvents he).2
    · exact Or.inr (mem_exec_ctcOkEvents he).2
  · rw [List.mem_singleton] at he
    exact absurd he (by simp)

theorem exec_admin_mem_okTrace {w : World} {st : Setup} {v : JSValue} {s' : Stmt}
    {a' : Option Bool} (hc : st.cdcOpt = some v) (ht : v.truthy = true)
    (he : Event.exec .adminConn s' a' ∈ okTrace w st) :
    s' = .selectRoleExists (interp v.uname?) ∨
      (w.answer (execStmts (mainOkEvents w st.database (interp st.username)
            (interp st.password) []) ++
          serviceStmts st.database (interp st.schema) (interp st.username))
          (.selectRoleExists (interp v.uname?)) = false ∧
        s' = .createUser (interp v.uname?) (interp v.pword?)) := by
  rw [okTrace, hc] at he
  dsimp only at he
  rw [ht] at he
  simp only [if_true] at he
  have hh : execStmts (mainOkEvents w st.database (interp st.username) (interp st.password) [] ++
      svcOkEvents w st.database (interp st.schema) (interp st.username)
        (execStmts (mainOkEvents w st.database (interp st.username) (interp st.password) []))) =
      execStmts (mainOkEvents w st.database (interp st.username) (interp st.password) []) ++
        serviceStmts st.database (interp st.schema) (interp st.username) := by
    rw [execStmts_append, execStmts_svcOkEvents]
  rcases List.mem_append.mp he with hm | hm
  · rcases List.mem_append.mp hm with hm' | hm'
    · rcases List.mem_append.mp hm' with hm'' | hm''
      · have := mem_mainOkEvents_conn hm''
        simp [eventConn] at this
      · have := mem_svcOkEvents_conn hm''
        simp [eventConn] at this
    · rw [cdcAdminOkEvents] at hm'
      rcases List.mem_cons.mp hm' with habs | hm'
      · exact absurd habs (by simp)
      rcases List.mem_append.mp hm' with hm'' | hm''
      · have := (mem_exec_ctcOkEvents hm'').2
        rw [hh] at this
        exact this
      · rw [List.mem_singleton] at hm''
        exact absurd hm'' (by simp)
  · have := mem_cdcGrantOkEvents_conn hm
    simp [eventConn] at this

theorem exec_admin_mem_okTrace_mpr {w : World} {st : Setup} {v : JSValue}
    (hc : st.cdcOpt = some v) (ht : v.truthy = true)
    (ha : w.answer (execStmts (mainOkEvents w st.database (interp st.username)
          (interp st.password) []) ++
        serviceStmts st.database (interp st.schema) (interp st.username))
        (.selectRoleExists (interp v.uname?)) = false) :
    ∃ a, Event.exec .adminConn
      (.createUser (interp v.uname?) (interp v.pword?)) a ∈ okTrace w st := by
  have hh : execStmts (mainOkEvents w st.database (interp st.username) (interp st.password) [] ++
      svcOkEvents w st.database (interp st.schema) (interp st.username)
        (execStmts (mainOkEvents w st.database (interp st.username) (interp st.password) []))) =
      execStmts (mainOkEvents w st.database (interp st.username) (interp st.password) []) ++
        serviceStmts st.database (interp st.schema) (interp st.username) := by
    rw [execStmts_append, execStmts_svcOkEvents]
  have ha' : w.answer (execStmts (mainOkEvents w st.database (interp st.username)
        (interp st.password) [] ++
      svcOkEvents w st.database (interp st.schema) (interp st.username)
        (execStmts (mainOkEvents w st.database (interp st.username) (interp st.password) []))))
      (.selectRoleExists (interp v.uname?)) = false := by
    rw [hh]
    exact ha
  refine ⟨some (w.answer (execStmts (mainOkEvents w st.database (interp st.username)
      (interp st.password) [] ++
      svcOkEvents w st.database (interp st.schema) (interp st.username)
        (execStmts (mainOkEvents w st.database (interp st.username)
          (interp st.password) []))) ++
      [Stmt.selectRoleExists (interp v.uname?)])
    (.createUser (interp v.uname?) (interp v.pword?))), ?_⟩
  rw [okTrace, hc]
  dsimp only
  rw [ht]
  simp only [if_true]
  refine List.mem_append.mpr (Or.inl (List.mem_append.mpr (Or.inr ?_)))
  rw [cdcAdminOkEvents]
  refine List.mem_cons_of_mem _ (List.mem_append.mpr (Or.inl ?_))
  exact exec_ctc_mem_false ha'

theorem mem_cdcTail {w : World} {st : Setup} {s : Stmt}
    (hm : s ∈ (match st.cdcOpt with
      | some v =>
        if v.truthy then
          ctcOkStmts w (.selectRoleExists (interp v.uname?))
              (.createUser (interp v.uname?) (interp v.pword?))
              (execStmts (mainOkEvents w st.database (interp st.username)
                  (interp st.password) []) ++
                serviceStmts st.database (interp st.schema) (interp st.username)) ++
            cdcStmts st.database (interp st.schema) (interp v.uname?)
        else []
      | none => [])) :
    ∃ v, st.cdcOpt = some v ∧ v.truthy = true ∧
      (s ∈ ctcOkStmts w (.selectRoleExists (interp v.uname?))
          (.createUser (interp v.uname?) (interp v.pword?))
          (execStmts (mainOkEvents w st.database (interp st.username)
              (interp st.password) []) ++
            serviceStmts st.database (interp st.schema) (interp st.username)) ∨
        s ∈ cdcStmts st.database (interp st.schema) (interp v.uname?)) := by
  rcases hc : st.cdcOpt with _ | v
  · rw [hc] at hm
    simp at hm
  · rw [hc] at hm
    dsimp only at hm
    cases ht : v.truthy with
    | false =>
      rw [ht] at hm
      simp at hm
    | true =>
      rw [ht] at hm
      simp only [if_true] at hm
      exact ⟨v, rfl, ht, List.mem_append.mp hm⟩

/-- C2: in every successful run, `CREATE DATABASE` is issued iff the
database-existence check of that run answered `false`; the service-role
`CREATE USER` (on the admin connection `mainConn`) is issued iff the
service-role-existence check answered `false`; the CDC-role `CREATE USER`
(on `adminConn`) is issued iff the CDC-role-existence check answered
`false`. Against a database that answers role checks truthfully
(`TruthfulRoles`), no role is created at both sites, `CREATE DATABASE`
occurs at most once, and against an already-provisioned target (all
existence checks answering `true`) no creation statement is issued at
all. -/
theorem c2_existence_gated_creation (env : Env) (w : World) (st : Setup)
    (m : HandlerResult) (hs : setup env w = .ok st) (h : runRes env w = .ok m) :
    ((Stmt.createDatabase st.database ∈ execStmts (runEvents env w)) ↔
      w.answer [] (.selectDbExists st.database) = false) ∧
    ((∃ a, Event.exec .mainConn
        (.createUser (interp st.username) (interp st.password)) a ∈ runEvents env w) ↔
      w.answer (ctcOkStmts w (.selectDbExists st.database) (.createDatabase st.database) [])
        (.selectRoleExists (interp st.username)) = false) ∧
    (∀ v, st.cdcOpt = some v → v.truthy = true →
      ((∃ a, Event.exec .adminConn
          (.createUser (interp v.uname?) (interp v.pword?)) a ∈ runEvents env w) ↔
        w.answer (execStmts (mainOkEvents w st.database (interp st.username)
              (interp st.password) []) ++
            serviceStmts st.database (interp st.schema) (interp st.username))
          (.selectRoleExists (interp v.uname?)) = false)) ∧
    (TruthfulRoles w → ∀ v, st.cdcOpt = some v → v.truthy = true →
      interp v.uname? = interp st.username →
      (∃ a, Event.exec .mainConn
        (.createUser (interp st.username) (interp st.password)) a ∈ runEvents env w) →
      ¬∃ a, Event.exec .adminConn
        (.createUser (interp v.uname?) (interp v.pword?)) a ∈ runEvents env w) ∧
    ((execStmts (runEvents env w)).countP
      (fun s => decide (s = Stmt.createDatabase st.database)) ≤ 1) ∧
    ((∀ hist s, w.answer hist s = true) →
      (∀ d, Stmt.createDatabase d ∉ execStmts (runEvents env w)) ∧
      (∀ r p, Stmt.createUser r p ∉ execStmts (runEvents env w))) := by
  obtain ⟨st', hst', htr, _⟩ := handler_ok h
  rw [hs] at hst'
  injection hst' with he
  subst he
  refine ⟨?_, ?_, ?_, ?_, ?_, ?_⟩
  · rw [htr]
    constructor
    · intro hmem
      rw [execStmts_okTrace] at hmem
      rcases List.mem_append.mp hmem with hm | hm
      · rcases List.mem_append.mp hm with hm' | hm'
        · rcases List.mem_append.mp hm' with hA | hB
          · rcases ctcOkStmts_mem_iff.mp hA with h' | ⟨ha, _⟩
            · exact Stmt.noConfusion h'
            · exact ha
          · rcases ctcOkStmts_mem_iff.mp hB with h' | ⟨_, h'⟩ <;> exact Stmt.noConfusion h'
        · simp [serviceStmts] at hm'
      · obtain ⟨v, _, _, hm' | hm'⟩ := mem_cdcTail hm
        · rcases ctcOkStmts_mem_iff.mp hm' with h' | ⟨_, h'⟩ <;> exact Stmt.noConfusion h'
        · simp [cdcStmts] at hm'
    · intro ha
      rw [execStmts_okTrace]
      refine List.mem_append.mpr (Or.inl (List.mem_append.mpr (Or.inl
        (List.mem_append.mpr (Or.inl ?_)))))
      exact ctcOkStmts_mem_iff.mpr (Or.inr ⟨ha, rfl⟩)
  · rw [htr]
    constructor
    · rintro ⟨a, hmem⟩
      have h2 := exec_main_mem_mainOk (exec_main_mem_okTrace hmem)
      rcases h2 with (h' | ⟨_, h'⟩) | (h' | ⟨ha, _⟩)
      · exact Stmt.noConfusion h'
      · exact Stmt.noConfusion h'
      · exact Stmt.noConfusion h'
      · exact ha
    · intro ha
      refine ⟨some (w.answer (([] ++ ctcOkStmts w (.selectDbExists st.database)
          (.createDatabase st.database) []) ++ [Stmt.selectRoleExists (interp st.username)])
          (.createUser (interp st.username) (interp st.password))), ?_⟩
      apply mem_okTrace_of_main
      rw [mainOkEvents]
      refine List.mem_cons_of_mem _ (List.mem_append.mpr (Or.inl
        (List.mem_append.mpr (Or.inr ?_))))
      exact exec_ctc_mem_false ha
  · intro v hv ht
    rw [htr]
    constructor
    · rintro ⟨a, hmem⟩
      rcases exec_admin_mem_okTrace hv ht hmem with h' | ⟨ha, _⟩
      · exact Stmt.noConfusion h'
      · exact ha
    · intro ha
      exact exec_admin_mem_okTrace_mpr hv ht ha
  · intro hTR v hv ht heq hexec hcontra
    rw [htr] at hexec hcontra
    obtain ⟨a', hmem'⟩ := hcontra
    obtain ⟨a0, hmem0⟩ := hexec
    have h2 := exec_main_mem_mainOk (exec_main_mem_okTrace hmem0)
    have ha2 : w.answer (ctcOkStmts w (.selectDbExists st.database)
        (.createDatabase st.database) [])
        (.selectRoleExists (interp st.username)) = false := by
      rcases h2 with (h' | ⟨_, h'⟩) | (h' | ⟨ha, _⟩)
      · exact Stmt.noConfusion h'
      · exact Stmt.noConfusion h'
      · exact Stmt.noConfusion h'
      · exact ha
    have hmemH : Stmt.createUser (interp st.username) (interp st.password) ∈
        execStmts (mainOkEvents w st.database (interp st.username) (interp st.password) []) ++
          serviceStmts st.database (interp st.schema) (interp st.username) := by
      refine List.mem_append.mpr (Or.inl ?_)
      rw [execStmts_mainOkEvents]
      refine List.mem_append.mpr (Or.inr ?_)
      exact ctcOkStmts_mem_iff.mpr (Or.inr ⟨ha2, rfl⟩)
    have htrue := hTR _ (interp st.username) (interp st.password) hmemH
    rcases exec_admin_mem_okTrace hv ht hmem' with h' | ⟨ha3, _⟩
    · exact Stmt.noConfusion h'
    · rw [heq] at ha3
      rw [htrue] at ha3
      exact Bool.noConfusion ha3
  · rw [htr, execStmts_okTrace]
    rw [List.countP_append, List.countP_append, List.countP_append]
    have hz1 : (ctcOkStmts w (.selectRoleExists (interp st.username))
        (.createUser (interp st.username) (interp st.password))
        ([] ++ ctcOkStmts w (.selectDbExists st.database)
          (.createDatabase st.database) [])).countP
        (fun s => decide (s = Stmt.createDatabase st.database)) = 0 := by
      rw [List.countP_eq_zero]
      intro s hsm
      rcases ctcOkStmts_mem_iff.mp hsm with h' | ⟨_, h'⟩ <;> subst h' <;> simp
    have hz2 : (serviceStmts st.database (interp st.schema)
        (interp st.username)).countP
        (fun s => decide (s = Stmt.createDatabase st.database)) = 0 := by
      rw [List.countP_eq_zero]
      intro s hsm
      simp [serviceStmts] at hsm
      rcases hsm with rfl | rfl | rfl | rfl | rfl | rfl | rfl | rfl | rfl | rfl | rfl <;> simp
    have hz3 : (match st.cdcOpt with
        | some v =>
          if v.truthy then
            ctcOkStmts w (.selectRoleExists (interp v.uname?))
                (.createUser (interp v.uname?) (interp v.pword?))
                (execStmts (mainOkEvents w st.database (interp st.username)
                    (interp st.password) []) ++
                  serviceStmts st.database (interp st.schema) (interp st.username)) ++
              cdcStmts st.database (interp st.schema) (interp v.uname?)
          else []
        | none => ([] : List Stmt)).countP
        (fun s => decide (s = Stmt.createDatabase st.database)) = 0 := by
      rw [List.countP_eq_zero]
      intro s hsm
      obtain ⟨v, _, _, hm' | hm'⟩ := mem_cdcTail hsm
      · rcases ctcOkStmts_mem_iff.mp hm' with h' | ⟨_, h'⟩ <;> subst h' <;> simp
      · simp [cdcStmts] at hm'
        rcases hm' with rfl | rfl | rfl | rfl <;> simp
    have h1 : (ctcOkStmts w (.selectDbExists st.database)
        (.createDatabase st.database) []).countP
        (fun s => decide (s = Stmt.createDatabase st.database)) ≤ 1 := by
      rw [ctcOkStmts]
      cases ha : w.answer [] (.selectDbExists st.database) <;>
        simp [List.countP_cons]
    rw [hz1, hz2, hz3]
    omega
  · intro hT
    constructor
    · intro d hmem
      rw [htr, execStmts_okTrace] at hmem
      rcases List.mem_append.mp hmem with hm | hm
      · rcases List.mem_append.mp hm with hm' | hm'
        · rcases List.mem_append.mp hm' with hA | hB
          · rcases ctcOkStmts_mem_iff.mp hA with h' | ⟨hfalse, _⟩
            · exact Stmt.noConfusion h'
            · rw [hT] at hfalse; exact Bool.noConfusion hfalse
          · rcases ctcOkStmts_mem_iff.mp hB with h' | ⟨hfalse, _⟩
            · exact Stmt.noConfusion h'
            · rw [hT] at hfalse; exact Bool.noConfusion hfalse
        · simp [serviceStmts] at hm'
      · obtain ⟨v, _, _, hm' | hm'⟩ := mem_cdcTail hm
        · rcases ctcOkStmts_mem_iff.mp hm' with h' | ⟨hfalse, _⟩
          · exact Stmt.noConfusion h'
          · rw [hT] at hfalse; exact Bool.noConfusion hfalse
        · simp [cdcStmts] at hm'
    · intro r p hmem
      rw [htr, execStmts_okTrace] at hmem
      rcases List.mem_append.mp hmem with hm | hm
      · rcases List.mem_append.mp hm with hm' | hm'
        · rcases List.mem_append.mp hm' with hA | hB
          · rcases ctcOkStmts_mem_iff.mp hA with h' | ⟨hfalse, _⟩
            · exact Stmt.noConfusion h'
            · rw [hT] at hfalse; exact Bool.noConfusion hfalse
          · rcases ctcOkStmts_mem_iff.mp hB with h' | ⟨hfalse, _⟩
            · exact Stmt.noConfusion h'
            · rw [hT] at hfalse; exact Bool.noConfusion hfalse
        · simp [serviceStmts] at hm'
      · obtain ⟨v, _, _, hm' | hm'⟩ := mem_cdcTail hm
        · rcases ctcOkStmts_mem_iff.mp hm' with h' | ⟨hfalse, _⟩
          · exact Stmt.noConfusion h'
          · rw [hT] at hfalse; exact Bool.noConfusion hfalse
        · simp [cdcStmts] at hm'

/-- C2 witness: the theorem at the concrete happy-path run (fresh target,
every existence check answering `false`). -/
theorem c2_existence_gated_creation_witness :
    ((Stmt.createDatabase "app_database" ∈ execStmts (runEvents envFull wHappy)) ↔
      wHappy.answer [] (.selectDbExists "app_database") = false) ∧
    ((∃ a, Event.exec .mainConn (.createUser "myapp_user" "myapp_password") a ∈
        runEvents envFull wHappy) ↔
      wHappy.answer (ctcOkStmts wHappy (.selectDbExists "app_database")
          (.createDatabase "app_database") [])
        (.selectRoleExists "myapp_user") = false) ∧
    (∀ v, (some (JSValue.vObj (some "cdc_user") (some "cdc_password")) : Option JSValue) =
        some v → v.truthy = true →
      ((∃ a, Event.exec .adminConn
          (.createUser (interp v.uname?) (interp v.pword?)) a ∈ runEvents envFull wHappy) ↔
        wHappy.answer (execStmts (mainOkEvents wHappy "app_database" "myapp_user"
              "myapp_password" []) ++
            serviceStmts "app_database" "app_schema" "myapp_user")
          (.selectRoleExists (interp v.uname?)) = false)) ∧
    (TruthfulRoles wHappy → ∀ v,
      (some (JSValue.vObj (some "cdc_user") (some "cdc_password")) : Option JSValue) =
        some v → v.truthy = true →
      interp v.uname? = "myapp_user" →
      (∃ a, Event.exec .mainConn (.createUser "myapp_user" "myapp_password") a ∈
        runEvents envFull wHappy) →
      ¬∃ a, Event.exec .adminConn
        (.createUser (interp v.uname?) (interp v.pword?)) a ∈ runEvents envFull wHappy) ∧
    ((execStmts (runEvents envFull wHappy)).countP
      (fun s => decide (s = Stmt.createDatabase "app_database")) ≤ 1) ∧
    ((∀ hist s, wHappy.answer hist s = true) →
      (∀ d, Stmt.createDatabase d ∉ execStmts (runEvents envFull wHappy)) ∧
      (∀ r p, Stmt.createUser r p ∉ execStmts (runEvents envFull wHappy))) :=
  c2_existence_gated_creation envFull wHappy
    ⟨some "myapp_user", some "myapp_password", "app_database", some "app_schema",
      some (.vObj (some "cdc_user") (some "cdc_password"))⟩
    ⟨"Database 'app_database' for username(s) 'myapp_user & cdc_user' is ready for use!"⟩
    rfl rfl
